import Mathlib

/-!
Verification of the Call-Sense agent-orchestration core.

This file gives a shallow embedding, in Lean 4, of the repository's
agent-orchestration substrate: the per-call state (`graph/state.py`), the
A2A message bus (`graph/a2a.py`), the metrics / memory aggregation
(`eval/metrics.py`), the eight agents (`agents/*.py`), the registry
(`graph/agents.py`) and the supervisor (`graph/supervisor.py`).

Modelling conventions:
* Python floats are modelled as rationals (`ℚ`).
* Python dictionaries are modelled as association lists; JSON-compatible
  values as the inductive `Json`.
* A Python function that can raise is modelled with `Except`; exceptions
  raised while a `CallState` has already been mutated in place carry the
  mutated state (`Except CallState CallState`), because the pipeline
  mutates one shared record.
* The external LLM capability is modelled per calling agent: every agent
  performs at most one LLM call per run, with a prompt that is a pure
  function of the call state, so a prompt-indexed stub specialises to an
  agent-indexed one.  A reply is either a raised exception (`LLMReply.fail`,
  covering transport errors and a non-string `content` attribute) or a
  returned content string together with the result of `json.loads` on its
  stripped form (`none` when `json.loads` raises).
* Wall-clock reads (`time.time()`) are passed in as explicit rational
  parameters.
-/

/-! ## Python string primitives used by the repository -/

/-- Whitespace characters matched by Python's `\s` (ASCII range, which is all
the repository's inputs use in the modelled fragment). -/
def pySpace (c : Char) : Bool :=
  c = ' ' ∨ c = '\t' ∨ c = '\n' ∨ c = '\r' ∨ c = '\x0b' ∨ c = '\x0c'

/-- Model of Python `str.strip()` on a character list. -/
def pyStripL (cs : List Char) : List Char :=
  ((cs.dropWhile pySpace).reverse.dropWhile pySpace).reverse

/-- Model of Python `str.strip()`. -/
def pyStrip (s : String) : String :=
  String.mk (pyStripL s.toList)

/-- Does `cs` start with `pat`? (Model of an anchored literal match.) -/
def startsWithL : List Char → List Char → Bool
  | _, [] => true
  | [], _ :: _ => false
  | c :: cs, p :: ps => c = p && startsWithL cs ps

/-- Does `hay` contain `pat` as a contiguous sublist?  Model of Python's
substring test `pat in hay`. -/
def hasSubL (hay pat : List Char) : Bool :=
  match hay with
  | [] => startsWithL [] pat
  | _ :: rest => startsWithL hay pat || hasSubL rest pat

/-- Model of Python `needle in hay` for strings. -/
def pyIn (needle hay : String) : Bool :=
  hasSubL hay.toList needle.toList

/-- Model of Python `str.lower()` (ASCII case folding). -/
def pyLower (s : String) : String :=
  String.mk (s.toList.map Char.toLower)

/-- Split a character list into maximal runs of non-whitespace characters;
model of Python `str.split()` with no argument. -/
def wordsL : List Char → List Char → List (List Char)
  | [], acc => if acc.isEmpty then [] else [acc.reverse]
  | c :: rest, acc =>
    if pySpace c then
      if acc.isEmpty then wordsL rest [] else acc.reverse :: wordsL rest []
    else wordsL rest (c :: acc)

/-- Model of Python `str.split()`. -/
def pyWords (s : String) : List String :=
  (wordsL s.toList []).map String.mk

/-- Model of `" ".join(words)`. -/
def joinWords : List String → String
  | [] => ""
  | [w] => w
  | w :: rest => w ++ " " ++ joinWords rest

/-! ## JSON values (results of `json.loads`) -/

/-- JSON-compatible Python values as produced by `json.loads` and used in the
repository's dictionaries and payloads. -/
inductive Json where
  | null : Json
  | bool (b : Bool) : Json
  | num (q : ℚ) : Json
  | str (s : String) : Json
  | arr (xs : List Json) : Json
  | obj (kvs : List (String × Json)) : Json
deriving Repr

mutual

/-- Structural decidable equality for `Json` (used only to state theorems;
Python's `==` is the separate `pyEq`). -/
def jsonDecEq : (a b : Json) → Decidable (a = b)
  | .null, .null => isTrue rfl
  | .bool a, .bool b =>
    match decEq a b with
    | isTrue h => isTrue (by rw [h])
    | isFalse h => isFalse (by simp [h])
  | .num a, .num b =>
    match decEq a b with
    | isTrue h => isTrue (by rw [h])
    | isFalse h => isFalse (by simp [h])
  | .str a, .str b =>
    match decEq a b with
    | isTrue h => isTrue (by rw [h])
    | isFalse h => isFalse (by simp [h])
  | .arr a, .arr b =>
    match jsonListDecEq a b with
    | isTrue h => isTrue (by rw [h])
    | isFalse h => isFalse (by simp [h])
  | .obj a, .obj b =>
    match jsonKVListDecEq a b with
    | isTrue h => isTrue (by rw [h])
    | isFalse h => isFalse (by simp [h])
  | .null, .bool _ | .null, .num _ | .null, .str _ | .null, .arr _ | .null, .obj _
  | .bool _, .null | .bool _, .num _ | .bool _, .str _ | .bool _, .arr _ | .bool _, .obj _
  | .num _, .null | .num _, .bool _ | .num _, .str _ | .num _, .arr _ | .num _, .obj _
  | .str _, .null | .str _, .bool _ | .str _, .num _ | .str _, .arr _ | .str _, .obj _
  | .arr _, .null | .arr _, .bool _ | .arr _, .num _ | .arr _, .str _ | .arr _, .obj _
  | .obj _, .null | .obj _, .bool _ | .obj _, .num _ | .obj _, .str _ | .obj _, .arr _ =>
    isFalse (by intro h; exact Json.noConfusion h)

/-- Decidable equality for lists of `Json`. -/
def jsonListDecEq : (a b : List Json) → Decidable (a = b)
  | [], [] => isTrue rfl
  | [], _ :: _ => isFalse (by simp)
  | _ :: _, [] => isFalse (by simp)
  | x :: xs, y :: ys =>
    match jsonDecEq x y with
    | isTrue h1 =>
      match jsonListDecEq xs ys with
      | isTrue h2 => isTrue (by rw [h1, h2])
      | isFalse h2 => isFalse (by simp [h2])
    | isFalse h1 => isFalse (by simp [h1])

/-- Decidable equality for association lists of `Json`. -/
def jsonKVListDecEq : (a b : List (String × Json)) → Decidable (a = b)
  | [], [] => isTrue rfl
  | [], _ :: _ => isFalse (by simp)
  | _ :: _, [] => isFalse (by simp)
  | (k, v) :: xs, (k', v') :: ys =>
    match decEq k k' with
    | isTrue hk =>
      match jsonDecEq v v' with
      | isTrue hv =>
        match jsonKVListDecEq xs ys with
        | isTrue h2 => isTrue (by rw [hk, hv, h2])
        | isFalse h2 => isFalse (by simp [h2])
      | isFalse hv => isFalse (by simp [hv])
    | isFalse hk => isFalse (by simp [hk])

end

instance : DecidableEq Json := jsonDecEq

/-- Python truthiness of a JSON-compatible value (`bool(v)`). -/
def jTruthy : Json → Bool
  | .null => false
  | .bool b => b
  | .num q => q ≠ 0
  | .str s => s ≠ ""
  | .arr xs => ¬ xs.isEmpty
  | .obj kvs => ¬ kvs.isEmpty

/-- Truthiness of an optional value, as used for `d.get(k)` results
(`None` is falsy). -/
def optTruthy : Option Json → Bool
  | none => false
  | some v => jTruthy v

/-- Numeric view used by Python `==`: `True == 1`, `False == 0`, and ints
and floats compare numerically. -/
def jNumVal : Json → Option ℚ
  | .bool b => some (if b then 1 else 0)
  | .num q => some q
  | _ => none

/-- Model of Python `==` on the hashable JSON-compatible scalars that reach
set-membership and dict-key positions in the repository.  Containers are
compared structurally (they never reach those positions without raising
first). -/
def pyEq (a b : Json) : Bool :=
  match jNumVal a, jNumVal b with
  | some x, some y => x = y
  | _, _ => a = b

/-- Is the value hashable in Python (usable as a dict key / set element)? -/
def jHashable : Json → Bool
  | .arr _ => false
  | .obj _ => false
  | _ => true

/-- Model of `d.get(k)` on a Python dict represented as an association list
(keys built by the repository are unique, and `json.loads` collapses
duplicate keys, so first-match lookup is faithful). -/
def jGet (kvs : List (String × Json)) (k : String) : Option Json :=
  (kvs.find? (fun kv => kv.1 = k)).map (·.2)

/-- Model of `d.get(k, d0)`. -/
def jGetD (kvs : List (String × Json)) (k : String) (d0 : Json) : Json :=
  (jGet kvs k).getD d0

/-- Model of `k in d` for a Python dict. -/
def jHasKey (kvs : List (String × Json)) (k : String) : Bool :=
  kvs.any (fun kv => kv.1 = k)

/-- Model of `d[k] = v` on a Python dict: overwrite in place if the key
exists, else append at the end (insertion order is preserved). -/
def jSet (kvs : List (String × Json)) (k : String) (v : Json) : List (String × Json) :=
  if jHasKey kvs k then
    kvs.map (fun kv => if kv.1 = k then (kv.1, v) else kv)
  else kvs ++ [(k, v)]

/-- Rendering of a rational as Python would print the underlying number.
Python prints floats and ints with rules that depend on the machine float
representation; no theorem in this file depends on this rendering, it only
has to be some fixed total function. -/
def numRender (q : ℚ) : String :=
  if q.den = 1 then toString q.num else toString q.num ++ "/" ++ toString q.den

mutual

/-- Model of Python `str(v)` for JSON-compatible values (used in f-strings
such as `f"{issue} related to {product}"`). -/
def pyStr : Json → String
  | .null => "None"
  | .bool b => if b then "True" else "False"
  | .num q => numRender q
  | .str s => s
  | .arr xs => "[" ++ pyStrList xs ++ "]"
  | .obj kvs => "\x7b" ++ pyStrKVs kvs ++ "\x7d"

/-- Comma-joined rendering of a JSON list. -/
def pyStrList : List Json → String
  | [] => ""
  | [x] => pyStr x
  | x :: rest => pyStr x ++ ", " ++ pyStrList rest

/-- Comma-joined rendering of a JSON object body. -/
def pyStrKVs : List (String × Json) → String
  | [] => ""
  | [(k, v)] => k ++ ": " ++ pyStr v
  | (k, v) :: rest => k ++ ": " ++ pyStr v ++ ", " ++ pyStrKVs rest

end

/-- Parse an optional sign followed by decimal digits; `none` when the digit
run is empty.  Helper for the models of Python `float()` and `int()`. -/
def parseDigits (cs : List Char) : Option (ℤ × List Char) :=
  let (sign, rest) :=
    match cs with
    | '-' :: r => ((-1 : ℤ), r)
    | '+' :: r => ((1 : ℤ), r)
    | r => ((1 : ℤ), r)
  let digits := rest.takeWhile Char.isDigit
  if digits.isEmpty then none
  else
    let v : ℤ := digits.foldl (fun acc c => acc * 10 + (c.toNat - '0'.toNat : ℤ)) 0
    some (sign * v, rest.drop digits.length)

/-- Model of Python `float(s)` on simple decimal literals
(`[sign] digits [. digits] [e [sign] digits]` with surrounding whitespace);
exotic forms (`inf`, `nan`, underscores) are not modelled — no theorem
depends on them. -/
def parseFloatQ (s : String) : Option ℚ :=
  match parseDigits (pyStripL s.toList) with
  | none => none
  | some (ip, rest) =>
    let (val, rest2) :=
      match rest with
      | '.' :: r =>
        let frac := r.takeWhile Char.isDigit
        let fv : ℤ := frac.foldl (fun acc c => acc * 10 + (c.toNat - '0'.toNat : ℤ)) 0
        let q : ℚ := (ip : ℚ) + (if ip < 0 then -1 else 1) * (fv : ℚ) / ((10 : ℚ) ^ frac.length)
        (q, r.drop frac.length)
      | r => ((ip : ℚ), r)
    match rest2 with
    | [] => some val
    | 'e' :: r | 'E' :: r =>
      match parseDigits r with
      | some (ex, []) => some (val * (10 : ℚ) ^ (ex : ℤ))
      | _ => none
    | _ => none

/-- Model of Python `float(v)` on JSON-compatible values: numbers and bools
convert, numeric strings parse, everything else raises. -/
def jToFloat : Json → Except Unit ℚ
  | .num q => .ok q
  | .bool b => .ok (if b then 1 else 0)
  | .str s =>
    match parseFloatQ s with
    | some q => .ok q
    | none => .error ()
  | _ => .error ()

/-- Model of Python `int(v)`: bools and numbers truncate toward zero,
integer-literal strings parse, everything else raises. -/
def jToInt : Json → Except Unit ℤ
  | .num q => .ok (if q ≥ 0 then ⌊q⌋ else ⌈q⌉)
  | .bool b => .ok (if b then 1 else 0)
  | .str s =>
    match parseDigits (pyStripL s.toList) with
    | some (v, []) => .ok v
    | _ => .error ()
  | _ => .error ()

/-! ## Models of the regex transformations in the agents -/

/-- Model of `re.sub(r"\s+", " ", text)`: every maximal whitespace run is
replaced by a single space (`inRun` tracks whether the current run already
emitted its space). -/
def squeezeWs (cs : List Char) : List Char :=
  go cs false
where
  /-- Structural scan over the characters. -/
  go : List Char → Bool → List Char
    | [], _ => []
    | c :: rest, inRun =>
      if pySpace c then
        if inRun then go rest true else ' ' :: go rest true
      else c :: go rest false

/-- Noise tags removed by the cleaning fallback, lower-cased. -/
def noiseTags : List (List Char) := ["[noise]".toList, "[music]".toList, "[silence]".toList]

/-- Does `cs` start (case-insensitively) with one of the noise tags?  Returns
the tag length. -/
def matchTag (cs : List Char) : Option Nat :=
  (noiseTags.find? (fun t => startsWithL (cs.map Char.toLower) t)).map (·.length)

/-- A matched noise tag has positive length (all tags are nonempty). -/
theorem matchTag_pos {cs : List Char} {n : ℕ} (h : matchTag cs = some n) : 0 < n := by
  unfold matchTag at h
  rw [Option.map_eq_some'] at h
  obtain ⟨t, ht, hn⟩ := h
  have hm := List.mem_of_find?_eq_some ht
  simp only [noiseTags, List.mem_cons, List.not_mem_nil, or_false] at hm
  rcases hm with rfl | rfl | rfl <;> simp at hn <;> omega

/-- Model of `re.sub(r"\[(noise|music|silence)\]", "", text, flags=IGNORECASE)`:
remove every (leftmost, non-overlapping) occurrence of a noise tag.  The
scan is fueled by the input length, which suffices because a matched tag
consumes at least one character (`matchTag_pos`). -/
def removeTags (cs : List Char) : List Char :=
  go cs.length cs
where
  /-- Fueled structural scan. -/
  go : Nat → List Char → List Char
    | _, [] => []
    | 0, rest => rest
    | fuel + 1, c :: cs =>
      match matchTag (c :: cs) with
      | some n => go fuel ((c :: cs).drop n)
      | none => c :: go fuel cs

/-- Terminal punctuation of `re.split(r"(?<=[.!?])\s+", text)`. -/
def isSentEnd (c : Char) : Bool := c = '.' ∨ c = '!' ∨ c = '?'

/-- Is the most recently read character (head of the reversed current part)
sentence-ending punctuation? -/
def headPunct (cur : List Char) : Bool :=
  match cur.head? with
  | some p => isSentEnd p
  | none => false

/-- Core of the model of `re.split(r"(?<=[.!?])\s+", text)`: `cur` is the
reversed current part; `inRun` is true while consuming a delimiter
whitespace run. -/
def splitSentences : List Char → List Char → Bool → List (List Char)
  | [], cur, _ => [cur.reverse]
  | c :: rest, cur, true =>
    if pySpace c then splitSentences rest cur true
    else splitSentences rest [c] false
  | c :: rest, cur, false =>
    if pySpace c && headPunct cur then
      cur.reverse :: splitSentences rest [] true
    else splitSentences rest (c :: cur) false

/-- Leading whitespace-delimited token of an already-stripped string; model of
`re.split(r"\s+", label.strip())[0]`. -/
def firstToken (s : String) : String :=
  String.mk ((pyStripL s.toList).takeWhile (fun c => ¬ pySpace c))

/-- Model of `re.sub(r"[^a-z_]", "", s)`. -/
def keepLabelChars (s : String) : String :=
  String.mk (s.toList.filter (fun c => ('a' ≤ c ∧ c ≤ 'z') ∨ c = '_'))

/-- Word characters for Python's `\b` boundary. -/
def isWordChar (c : Char) : Bool := c.isAlphanum ∨ c = '_'

/-- Does the remainder after a `cancel` occurrence satisfy `\b.*account`
(`.` does not cross newlines)? -/
def cancelTail (rest : List Char) : Bool :=
  (match rest.head? with | some c => ¬ isWordChar c | none => true) &&
    hasSubL (rest.takeWhile (fun c => c ≠ '\n')) "account".toList

/-- Model of `re.search(r"\b(cancel\b.*account|close my account)", text)` as a
boolean: the second alternative is a plain substring, the first requires a
word-bounded `cancel` followed, without an intervening newline, by
`account`. -/
def cancelAccountSearch (cs : List Char) : Bool :=
  go cs none || hasSubL cs "close my account".toList
where
  /-- Scan every position, tracking the previous character for the `\b`. -/
  go : List Char → Option Char → Bool
    | [], _ => false
    | c :: rest, prev =>
      ((match prev with | some p => ¬ isWordChar p | none => true) &&
        startsWithL (c :: rest) "cancel".toList &&
        cancelTail ((c :: rest).drop 6)) ||
      go rest (some c)

/-- Model of `textwrap.shorten(text, width, placeholder="...")`: collapse
whitespace; if the collapsed text fits, return it, else keep a maximal word
list that fits together with the placeholder. -/
def pyShorten (text : String) (width : Nat) (placeholder : String) : String :=
  let ws := pyWords text
  let collapsed := joinWords ws
  if collapsed.length ≤ width then collapsed
  else
    let kept := go ws "" width placeholder
    if kept = "" then placeholder else kept ++ placeholder
where
  /-- Greedily accumulate words while the join plus placeholder fits. -/
  go : List String → String → Nat → String → String
    | [], acc, _, _ => acc
    | w :: rest, acc, width, placeholder =>
      let cand := if acc = "" then w else acc ++ " " ++ w
      if cand.length + placeholder.length ≤ width then go rest cand width placeholder
      else acc

/-! ## Data model (`graph/state.py`) -/

/-- One A2A message record (`graph/a2a.py`): a dict with keys `from`, `to`,
`type`, `payload`.  Field names follow `send_message`'s keyword parameters
because `from` is reserved in Lean. -/
structure Message where
  from_agent : String
  to_agent : String
  msg_type : String
  payload : List (String × Json)
deriving Repr, DecidableEq

/-- One entry of `frustration_timeline`: a dict
`{"index": int, "utterance": ..., "level": str}` (the utterance is a string
on the rule-based path but can be any JSON value on the LLM path). -/
structure TimelineEntry where
  index : ℤ
  utterance : Json
  level : String
deriving Repr, DecidableEq

/-- Per-call, in-memory state (`CallState` in `graph/state.py`). -/
structure CallState where
  call_id : Option String := none
  raw_transcript : String := ""
  cleaned_transcript : String := ""
  utterances : List String := []
  entities : List (String × Json) := []
  summary : String := ""
  sentiment : String := ""
  frustration_timeline : List TimelineEntry := []
  pain_points : List Json := []
  recommended_actions : List String := []
  messages : List Message := []
  evaluation : List (String × Json) := []
  start_ts : ℚ := 0
  step_count : ℕ := 0
  tool_calls : ℕ := 0
  tool_successes : ℕ := 0
deriving Repr, DecidableEq

/-- Long-term memory across calls (`MemoryState` in `graph/state.py`).
`pain_point_counts` and `product_issue_counts` are keyed by the Python
values used as dict keys (strings on every rule-based path, but arbitrary
hashable values can arrive from parsed LLM output), so their keys are
`Json`. -/
structure MemoryState where
  pain_point_counts : List (Json × ℕ) := []
  sentiment_counts : List (String × ℕ) := []
  product_issue_counts : List (Json × ℕ) := []
  total_calls : ℕ := 0
  avg_faithfulness : ℚ := 0
  avg_coverage : ℚ := 0
  avg_consistency : ℚ := 0
deriving Repr, DecidableEq

/-- Fresh `MemoryState()` with all dataclass defaults. -/
def freshMemory : MemoryState := {}

/-! ## A2A message bus (`graph/a2a.py`) -/

/-- Model of `send_message`: append one message record to
`state.messages`. -/
def send_message (state : CallState) (from_agent to_agent msg_type : String)
    (payload : List (String × Json)) : CallState :=
  { state with
    messages := state.messages ++
      [{ from_agent := from_agent, to_agent := to_agent,
         msg_type := msg_type, payload := payload }] }

/-- Model of `get_messages_for_agent`: keep the messages whose `to` field is
the agent or `"any"`, then optionally filter by exact type. -/
def get_messages_for_agent (state : CallState) (agent_name : String)
    (msg_type : Option String := none) : List Message :=
  let msgs := state.messages.filter
    (fun m => m.to_agent = agent_name || m.to_agent = "any")
  match msg_type with
  | none => msgs
  | some t => msgs.filter (fun m => m.msg_type = t)

/-! ## Metrics and memory aggregation (`eval/metrics.py`) -/

/-- Model of `compute_basic_eval`; `now` stands for the `time.time()` read.
The function is pure: it only reads `call_state` and returns a fresh
dict. -/
def compute_basic_eval (call_state : CallState) (now : ℚ) : List (String × Json) :=
  let tool_success_rate : ℚ :=
    if call_state.tool_calls ≠ 0 then
      (call_state.tool_successes : ℚ) / (call_state.tool_calls : ℚ)
    else 1
  let duration_sec : ℚ := max 0 (now - call_state.start_ts)
  [ ("tool_calls", .num call_state.tool_calls),
    ("tool_successes", .num call_state.tool_successes),
    ("tool_success_rate", .num tool_success_rate),
    ("step_count", .num call_state.step_count),
    ("duration_sec", .num duration_sec) ]

/-- Running-average helper `_update_running_avg` from
`update_memory_from_call`. -/
def updateRunningAvg (current_avg new_value : ℚ) (count : ℕ) : ℚ :=
  current_avg + (new_value - current_avg) / (count : ℚ)

/-- Increment a counter dict at a `Json` key; model of
`d[k] = d.get(k, 0) + 1` (existing key keeps its position, new key is
appended).  Python dict lookup uses `==`/`hash`, modelled by `pyEq`; an
unhashable key raises. -/
def bumpJsonCount (kvs : List (Json × ℕ)) (k : Json) : Except Unit (List (Json × ℕ)) :=
  if ¬ jHashable k then .error ()
  else if kvs.any (fun kv => pyEq kv.1 k) then
    .ok (kvs.map (fun kv => if pyEq kv.1 k then (kv.1, kv.2 + 1) else kv))
  else .ok (kvs ++ [(k, 1)])

/-- Increment a string-keyed counter dict; model of
`d[k] = d.get(k, 0) + 1`. -/
def bumpStrCount (kvs : List (String × ℕ)) (k : String) : List (String × ℕ) :=
  if kvs.any (fun kv => kv.1 = k) then
    kvs.map (fun kv => if kv.1 = k then (kv.1, kv.2 + 1) else kv)
  else kvs ++ [(k, 1)]

/-- Model of `update_memory_from_call`.  It can raise (hence `Except`): an
unhashable pain point or product value is a `TypeError`, and `float(...)`
on a non-convertible evaluation score raises.  On success it returns the
updated memory (the Python function mutates in place and returns it). -/
def update_memory_from_call (memory : MemoryState) (call_state : CallState) :
    Except Unit MemoryState := do
  let n := memory.total_calls + 1
  let sentiment := if call_state.sentiment = "" then "unknown" else call_state.sentiment
  let sentiment_counts := bumpStrCount memory.sentiment_counts sentiment
  let pain_point_counts ←
    call_state.pain_points.foldlM (fun acc p => bumpJsonCount acc p)
      memory.pain_point_counts
  let product := jGet call_state.entities "product"
  let product_issue_counts ←
    match product with
    | some pv =>
      if jTruthy pv then bumpJsonCount memory.product_issue_counts pv
      else pure memory.product_issue_counts
    | none => pure memory.product_issue_counts
  let avg_faithfulness ←
    match jGet call_state.evaluation "faithfulness_score" with
    | some v => do
      let x ← jToFloat v
      pure (updateRunningAvg memory.avg_faithfulness x n)
    | none => pure memory.avg_faithfulness
  let avg_coverage ←
    match jGet call_state.evaluation "coverage_score" with
    | some v => do
      let x ← jToFloat v
      pure (updateRunningAvg memory.avg_coverage x n)
    | none => pure memory.avg_coverage
  let avg_consistency ←
    match jGet call_state.evaluation "consistency_score" with
    | some v => do
      let x ← jToFloat v
      pure (updateRunningAvg memory.avg_consistency x n)
    | none => pure memory.avg_consistency
  pure
    { total_calls := n
      sentiment_counts := sentiment_counts
      pain_point_counts := pain_point_counts
      product_issue_counts := product_issue_counts
      avg_faithfulness := avg_faithfulness
      avg_coverage := avg_coverage
      avg_consistency := avg_consistency }

/-! ## External capabilities (`graph/tools.py`) -/

/-- Outcome of one LLM call as observed by an agent.  `fail` models any
exception raised while creating the completion or extracting a string
`content` (transport error, quota, non-string content).  `reply content
parsed` models a returned content string: `content` is the raw text and
`parsed` is the result of `json.loads` on its stripped form (`none` when
`json.loads` raises). -/
inductive LLMReply where
  | fail : LLMReply
  | reply (content : String) (parsed : Option Json) : LLMReply
deriving Repr, DecidableEq

/-- Container for external tools (`Tools` in `graph/tools.py`).  The LLM
client is modelled as a stub indexed by the calling agent's name (each agent
issues at most one call per run); the cleaner takes the transcript text and
either returns a cleaned string or raises.  `data_loader` is never used by
the pipeline and is omitted. -/
structure Tools where
  llm : Option (String → LLMReply) := none
  cleaner : Option (String → Except Unit String) := none

/-- Tools with no LLM and no cleaner (`llm_client=None, cleaner=None`). -/
def noTools : Tools := {}

/-- Python `a or b` on strings: `a` when it is nonempty, else `b`. -/
def orS (a b : String) : String := if a = "" then b else a

/-! ## Cleaning agent (`agents/cleaning.py`) -/

/-- Model of `_fallback_clean`: normalise whitespace, then strip obvious
noise artifacts. -/
def fallback_clean (text : String) : String :=
  if text = "" then ""
  else
    let t1 := pyStripL (squeezeWs text.toList)
    String.mk (removeTags t1)

/-- Model of `_split_utterances`: split after sentence-ending punctuation,
strip each part and drop empty parts. -/
def split_utterances (text : String) : List String :=
  if text = "" then []
  else
    ((splitSentences text.toList [] false).map (fun p => String.mk (pyStripL p))).filter
      (fun p => p ≠ "")

/-- Shared tail of `cleaning_agent`: store the cleaned transcript and its
segmentation, bump the counters by the path's deltas, count the step. -/
def cleaningFinish (call_state : CallState) (dCalls dSucc : ℕ) (cleaned : String) :
    Except CallState CallState :=
  .ok { call_state with
        cleaned_transcript := cleaned
        utterances := split_utterances cleaned
        tool_calls := call_state.tool_calls + dCalls
        tool_successes := call_state.tool_successes + dSucc
        step_count := call_state.step_count + 1 }

/-- Model of `cleaning_agent`.  With a cleaner: count the tool call, use the
cleaner's output on success and `_fallback_clean` on failure (the success
counter is only bumped when the call returns).  Without a cleaner, fall back
directly.  Always total. -/
def cleaning_agent (call_state : CallState) (tools : Tools) : Except CallState CallState :=
  match tools.cleaner with
  | some cl =>
    match cl call_state.raw_transcript with
    | .ok c => cleaningFinish call_state 1 1 c
    | .error _ =>
      cleaningFinish call_state 1 0 (fallback_clean call_state.raw_transcript)
  | none => cleaningFinish call_state 0 0 (fallback_clean call_state.raw_transcript)

/-! ## Entities agent (`agents/entities.py`) -/

/-- Product keywords of the rule-based extractor. -/
def PRODUCT_KEYWORDS : List String :=
  ["credit card", "debit card", "checking account", "savings account",
   "mobile app", "website", "online banking", "loan", "mortgage"]

/-- Issue keywords of the rule-based extractor. -/
def ISSUE_KEYWORDS : List String :=
  ["refund", "chargeback", "login", "password", "declined", "blocked",
   "fee", "overcharged", "statement", "transfer", "fraud", "dispute"]

/-- Model of `rule_based_entities`. -/
def rule_based_entities (text : String) : List (String × Json) :=
  let text_lower := pyLower text
  let product := PRODUCT_KEYWORDS.find? (fun kw => pyIn kw text_lower)
  let issue := ISSUE_KEYWORDS.find? (fun kw => pyIn kw text_lower)
  let priority :=
    if cancelAccountSearch text_lower.toList then "high"
    else if pyIn "supervisor" text_lower || pyIn "manager" text_lower ||
        pyIn "third time" text_lower || pyIn "fourth time" text_lower then "high"
    else "normal"
  [ ("customer_profile", .null),
    ("product", match product with | some kw => .str kw | none => .null),
    ("issue", match issue with | some kw => .str kw | none => .null),
    ("context", .null),
    ("priority", .str priority),
    ("other_tags", .arr []) ]

/-- Shared tail of `entities_agent`: sanity-wrap a non-dict value, store the
entities, publish the `entity_summary` A2A message to the summarization
agent, bump the counters and count the step. -/
def entitiesFinish (call_state : CallState) (dCalls dSucc : ℕ) (entities0 : Json) :
    Except CallState CallState :=
  let entities :=
    match entities0 with
    | .obj kvs => kvs
    | j => [("raw_entities", j)]
  let payload : List (String × Json) :=
    [ ("product", jGetD entities "product" .null),
      ("issue", jGetD entities "issue" .null),
      ("priority", jGetD entities "priority" .null),
      ("tags", jGetD entities "other_tags" (.arr [])) ]
  let st := { call_state with
              entities := entities
              tool_calls := call_state.tool_calls + dCalls
              tool_successes := call_state.tool_successes + dSucc }
  let st := send_message st "entities" "summarization" "entity_summary" payload
  .ok { st with step_count := st.step_count + 1 }

/-- Model of `entities_agent`: prefer LLM JSON extraction (falling back to
the rules when the call or `json.loads` fails), wrap a non-dict parse as
`{"raw_entities": ...}`, publish an `entity_summary` A2A message to the
summarization agent, and count the step.  Always total. -/
def entities_agent (call_state : CallState) (tools : Tools) : Except CallState CallState :=
  let text := orS call_state.cleaned_transcript call_state.raw_transcript
  match tools.llm with
  | none => entitiesFinish call_state 0 0 (.obj (rule_based_entities text))
  | some f =>
    match f "entities" with
    | .fail => entitiesFinish call_state 1 0 (.obj (rule_based_entities text))
    | .reply _ none => entitiesFinish call_state 1 1 (.obj (rule_based_entities text))
    | .reply _ (some j) => entitiesFinish call_state 1 1 j

/-! ## Summarization agent (`agents/summarization.py`) -/

/-- Fixed sentinel summary for a call with no transcript text. -/
def noTranscriptSummary : String := "No transcript content was available to summarize."

/-- Model of `_rule_based_summary` (with `textwrap.shorten` modelled by
`pyShorten`). -/
def rule_based_summary (call_state : CallState) : String :=
  let text := orS call_state.cleaned_transcript call_state.raw_transcript
  if pyStrip text = "" then noTranscriptSummary
  else pyShorten text 500 "..."

/-- Shared tail of `summarization_agent`: fall back to `_rule_based_summary`
when the LLM path produced no (or an empty stripped) summary, store it,
bump the counters and count the step. -/
def summarizationFinish (call_state : CallState) (dCalls dSucc : ℕ)
    (summary_text : String) : Except CallState CallState :=
  .ok { call_state with
        summary :=
          if summary_text = "" then rule_based_summary call_state else summary_text
        tool_calls := call_state.tool_calls + dCalls
        tool_successes := call_state.tool_successes + dSucc
        step_count := call_state.step_count + 1 }

/-- Model of `summarization_agent`: bail out with the sentinel when there is
no text at all; otherwise try the LLM (its A2A `entity_summary` read feeds
only the prompt, which is not modelled) and fall back to
`_rule_based_summary` when the call fails or the stripped reply is empty.
Always total. -/
def summarization_agent (call_state : CallState) (tools : Tools) :
    Except CallState CallState :=
  if call_state.cleaned_transcript = "" ∧ call_state.raw_transcript = "" then
    .ok { call_state with
          summary := noTranscriptSummary
          step_count := call_state.step_count + 1 }
  else
    match tools.llm with
    | none => summarizationFinish call_state 0 0 ""
    | some f =>
      match f "summarization" with
      | .fail => summarizationFinish call_state 1 0 ""
      | .reply content _ => summarizationFinish call_state 1 1 (pyStrip content)

/-! ## Sentiment agent (`agents/sentiment.py`) -/

/-- Allowed sentiment labels. -/
def ALLOWED_LABELS : List String :=
  ["very_negative", "negative", "neutral", "positive", "very_positive",
   "mixed", "unknown"]

/-- Negative keyword hints of the rule-based classifier. -/
def NEGATIVE_HINTS : List String :=
  ["angry", "frustrated", "upset", "mad", "cancel", "close my account",
   "this is the third time", "this is the second time", "unacceptable",
   "disappointed", "complaint", "not happy", "terrible", "awful", "worst"]

/-- Positive keyword hints of the rule-based classifier. -/
def POSITIVE_HINTS : List String :=
  ["thank you", "thanks a lot", "appreciate", "great", "awesome",
   "helpful", "resolved", "perfect", "excellent"]

/-- Model of `rule_based_sentiment`. -/
def rule_based_sentiment (text : String) : String :=
  if text = "" then "unknown"
  else
    let t := pyLower text
    let neg_hits := (NEGATIVE_HINTS.filter (fun w => pyIn w t)).length
    let pos_hits := (POSITIVE_HINTS.filter (fun w => pyIn w t)).length
    if neg_hits > pos_hits ∧ neg_hits ≥ 2 then "very_negative"
    else if neg_hits > pos_hits ∧ neg_hits ≥ 1 then "negative"
    else if pos_hits > neg_hits ∧ pos_hits ≥ 2 then "very_positive"
    else if pos_hits > neg_hits ∧ pos_hits ≥ 1 then "positive"
    else if pos_hits > 0 ∧ neg_hits > 0 then "mixed"
    else "neutral"

/-- Model of `_normalize_label`: first whitespace token of the stripped
label, lower-cased, restricted to `[a-z_]`, and checked against the allowed
set. -/
def normalize_label (label : String) : String :=
  if label = "" then "unknown"
  else
    let first := keepLabelChars (pyLower (firstToken label))
    if ALLOWED_LABELS.contains first then first else "unknown"

/-- Shared tail of `sentiment_agent`: normalise or rule-classify the label,
store it, bump the counters, count the step, and send the
`sentiment_signal` A2A message to the actions agent. -/
def sentimentFinish (call_state : CallState) (dCalls dSucc : ℕ)
    (label? : Option String) : Except CallState CallState :=
  let text := orS call_state.cleaned_transcript call_state.raw_transcript
  let sentiment_label :=
    match label? with
    | some l => if l = "" then rule_based_sentiment text else l
    | none => rule_based_sentiment text
  let st := { call_state with
              sentiment := sentiment_label
              tool_calls := call_state.tool_calls + dCalls
              tool_successes := call_state.tool_successes + dSucc
              step_count := call_state.step_count + 1 }
  .ok (send_message st "sentiment" "actions" "sentiment_signal"
        [("sentiment", .str sentiment_label)])

/-- Model of `sentiment_agent`: empty text short-circuits to `"unknown"`
with no LLM call and no A2A message; otherwise the LLM label is normalised
(falling back to the rules when the call fails), and a `sentiment_signal`
message is sent to the actions agent.  Always total. -/
def sentiment_agent (call_state : CallState) (tools : Tools) :
    Except CallState CallState :=
  if pyStrip (orS call_state.cleaned_transcript call_state.raw_transcript) = "" then
    .ok { call_state with
          sentiment := "unknown"
          step_count := call_state.step_count + 1 }
  else
    match tools.llm with
    | none => sentimentFinish call_state 0 0 none
    | some f =>
      match f "sentiment" with
      | .fail => sentimentFinish call_state 1 0 none
      | .reply content _ =>
        sentimentFinish call_state 1 1 (some (normalize_label (pyStrip content)))

/-! ## Frustration loop agent (`agents/frustration_loop.py`) -/

/-- Valid frustration labels. -/
def FRUSTRATION_LABELS : List String := ["low", "medium", "high"]

/-- Triggers for the `high` rule-based label. -/
def HIGH_TRIGGERS : List String :=
  ["this is the third time", "this is the second time", "i am very frustrated",
   "unacceptable", "i want to cancel", "close my account", "worst experience"]

/-- Triggers for the `medium` rule-based label. -/
def MEDIUM_TRIGGERS : List String :=
  ["not happy", "disappointed", "still not working", "nobody helped me",
   "already tried", "taking too long"]

/-- Model of `_rule_based_frustration` on a string utterance. -/
def rule_based_frustration (utterance : String) : String :=
  let u := pyLower utterance
  if HIGH_TRIGGERS.any (fun t => pyIn t u) then "high"
  else if MEDIUM_TRIGGERS.any (fun t => pyIn t u) then "medium"
  else "low"

/-- Model of `_rule_based_frustration` applied to an arbitrary parsed value:
`u.lower()` raises unless the value is a string. -/
def rule_based_frustrationJ : Json → Except Unit String
  | .str s => .ok (rule_based_frustration s)
  | _ => .error ()

/-- Model of `(item.get("level") or "").lower()`: a falsy value becomes
`""`, a truthy non-string raises. -/
def levelOf (item : List (String × Json)) : Except Unit String :=
  match jGet item "level" with
  | none => .ok ""
  | some v =>
    if jTruthy v then
      match v with
      | .str s => .ok (pyLower s)
      | _ => .error ()
    else .ok ""

/-- Sanitising pass of the LLM branch of `frustration_loop_agent`: one
timeline entry per parsed item; any raised error is caught by the agent's
`except` (yielding the empty timeline).  A non-dict item raises
(`item.get`), an invalid level falls back to the rules on the utterance,
`int(item.get("index", 0))` raises on non-numeric values. -/
def sanitizeTimeline : List Json → Except Unit (List TimelineEntry)
  | [] => .ok []
  | .obj item :: rest => do
    let lvl0 ← levelOf item
    let lvl ←
      if FRUSTRATION_LABELS.contains lvl0 then pure lvl0
      else rule_based_frustrationJ (jGetD item "utterance" (.str ""))
    let idx ← jToInt (jGetD item "index" (.num 0))
    let entry : TimelineEntry :=
      { index := idx, utterance := jGetD item "utterance" (.str ""), level := lvl }
    let restEntries ← sanitizeTimeline rest
    pure (entry :: restEntries)
  | _ :: _ => .error ()

/-- Rule-based timeline: one entry per utterance, 1-based indices. -/
def fallbackTimeline (utterances : List String) : List TimelineEntry :=
  utterances.enum.map (fun p =>
    { index := (p.1 : ℤ) + 1, utterance := .str p.2,
      level := rule_based_frustration p.2 })

/-- Model of `_overall_level`: `high` if any entry is high, else `medium` if
any is medium, else `low` (unrecognised levels are ignored by the
counters). -/
def overall_level (timeline : List TimelineEntry) : String :=
  if timeline.any (fun e => pyLower e.level = "high") then "high"
  else if timeline.any (fun e => pyLower e.level = "medium") then "medium"
  else "low"

/-- JSON rendering of a timeline entry, as it appears inside an A2A
payload. -/
def timelineEntryJson (e : TimelineEntry) : Json :=
  .obj [("index", .num (e.index : ℚ)), ("utterance", e.utterance),
        ("level", .str e.level)]

/-- Utterances seen by the frustration loop: the segmentation, or the whole
transcript when no segmentation happened. -/
def effectiveUtterances (call_state : CallState) : List String :=
  if call_state.utterances.isEmpty then
    let text := orS call_state.cleaned_transcript call_state.raw_transcript
    if text = "" then [] else [text]
  else call_state.utterances

/-- Timeline obtained from a parsed LLM reply: a sanitised list for a JSON
array (empty when sanitising raises, caught by the agent's `except`), empty
for every other shape. -/
def parsedTimeline (j : Json) : List TimelineEntry :=
  match j with
  | .arr xs =>
    match sanitizeTimeline xs with
    | .ok tl => tl
    | .error _ => []
  | _ => []

/-- Shared tail of `frustration_loop_agent`: fall back to the rule-based
timeline when the LLM path produced none, store it, bump the counters,
count the step and send the `frustration_summary` A2A message to
the pain-points agent. -/
def frustrationFinish (call_state : CallState) (utterances : List String)
    (dCalls dSucc : ℕ) (timeline0 : List TimelineEntry) :
    Except CallState CallState :=
  let timeline := if timeline0.isEmpty then fallbackTimeline utterances else timeline0
  let st := { call_state with
              frustration_timeline := timeline
              tool_calls := call_state.tool_calls + dCalls
              tool_successes := call_state.tool_successes + dSucc
              step_count := call_state.step_count + 1 }
  let overall := overall_level timeline
  let high_segments := timeline.filter (fun e => e.level = "high")
  .ok (send_message st "frustration_loop" "pain_points" "frustration_summary"
        [ ("overall_level", .str overall),
          ("high_segments", .arr (high_segments.map timelineEntryJson)),
          ("timeline_length", .num timeline.length) ])

/-- Model of `frustration_loop_agent`: empty segmentation falls back to the
whole transcript, and a fully empty call returns an empty timeline with no
message.  The LLM branch sanitises parsed items (any raised error is
caught, yielding the fallback), the rule-based branch labels each
utterance, and a `frustration_summary` A2A message is sent to the
pain-points agent.  Always total. -/
def frustration_loop_agent (call_state : CallState) (tools : Tools) :
    Except CallState CallState :=
  let utterances := effectiveUtterances call_state
  if utterances.isEmpty then
    .ok { call_state with
          frustration_timeline := []
          step_count := call_state.step_count + 1 }
  else
    match tools.llm with
    | none => frustrationFinish call_state utterances 0 0 []
    | some f =>
      match f "frustration_loop" with
      | .fail => frustrationFinish call_state utterances 1 0 []
      | .reply _ none => frustrationFinish call_state utterances 1 1 []
      | .reply _ (some j) => frustrationFinish call_state utterances 1 1 (parsedTimeline j)

/-! ## Pain points agent (`agents/pain_points.py`) -/

/-- Order-preserving dedup through a Python `set`; model of the
`seen`/`deduped` loop.  Membership uses Python `==`; an unhashable element
raises `TypeError` (even on the first membership test). -/
def pyDedupJson (xs : List Json) : Except Unit (List Json) :=
  go xs []
where
  /-- Walk the list keeping the first occurrence of each element. -/
  go : List Json → List Json → Except Unit (List Json)
    | [], _ => .ok []
    | p :: rest, seen =>
      if ¬ jHashable p then .error ()
      else if seen.any (fun q => pyEq q p) then go rest seen
      else do
        let tail ← go rest (p :: seen)
        pure (p :: tail)

/-- Fallback sentinel pain point. -/
def unclearPainPoint : String := "unclear primary pain point"

/-- Entity-derived pain points of `_rule_based_pain_points`: a truthy
`issue` yields one point, phrased against a truthy `product`. -/
def painPointsFromIssue (entities : List (String × Json)) : List Json :=
  match jGet entities "issue" with
  | some iv =>
    if jTruthy iv then
      match jGet entities "product" with
      | some pv =>
        if jTruthy pv then [.str (pyStr iv ++ " related to " ++ pyStr pv)]
        else [iv]
      | none => [iv]
    else []
  | none => []

/-- Keyword-derived pain points of `_rule_based_pain_points` (the text
argument is already lower-cased). -/
def painPointsFromText (text : String) : List Json :=
  (if pyIn "refund" text || pyIn "chargeback" text then
    [Json.str "refund or chargeback delay"] else []) ++
  (if pyIn "login" text || pyIn "password" text then
    [Json.str "login or authentication issues"] else []) ++
  (if pyIn "fee" text || pyIn "overcharged" text then
    [Json.str "unexpected fees or overcharging"] else [])

/-- A2A-derived pain point of `_rule_based_pain_points`: the latest
frustration summary with a `high` overall level yields one point. -/
def painPointsFromA2A (msgs : List Message) : List Json :=
  match msgs.getLast? with
  | some m =>
    if jGet m.payload "overall_level" = some (.str "high") then
      [.str "customer is highly frustrated after multiple attempts"]
    else []
  | none => []

/-- Model of `_rule_based_pain_points`: entity-derived points, keyword
points from the transcript, the A2A frustration summary, then an
order-preserving dedup (which raises on unhashable entity values), with
the sentinel when nothing was found. -/
def rule_based_pain_points (call_state : CallState) : Except Unit (List Json) := do
  let text := pyLower (orS call_state.cleaned_transcript call_state.raw_transcript)
  let msgs := get_messages_for_agent call_state "pain_points" (some "frustration_summary")
  let deduped ← pyDedupJson
    (painPointsFromIssue call_state.entities ++ painPointsFromText text ++
      painPointsFromA2A msgs)
  pure (if deduped.isEmpty then [.str unclearPainPoint] else deduped)

/-- A parsed LLM reply interpreted as a list of stripped strings (empties
dropped); `none` for non-array shapes.  Model of the
`isinstance(parsed, list)` comprehension used by the pain-points and
actions agents. -/
def parsedStrList (j : Json) : Option (List String) :=
  match j with
  | .arr xs => some ((xs.map (fun p => pyStrip (pyStr p))).filter (fun s => s ≠ ""))
  | _ => none

/-- Shared tail of `pain_points_agent`: keep a nonempty LLM result, else run
the rule-based fallback (whose `TypeError` escapes with the counters
already bumped), store the points and count the step. -/
def painPointsFinish (call_state : CallState) (dCalls dSucc : ℕ)
    (llmPoints : Option (List String)) : Except CallState CallState :=
  let stC := { call_state with
               tool_calls := call_state.tool_calls + dCalls
               tool_successes := call_state.tool_successes + dSucc }
  let points? : Option (List Json) :=
    match llmPoints with
    | some ps => if ps.isEmpty then none else some (ps.map Json.str)
    | none => none
  match points? with
  | some pts =>
    .ok { stC with pain_points := pts, step_count := stC.step_count + 1 }
  | none =>
    match rule_based_pain_points stC with
    | .ok pts =>
      .ok { stC with pain_points := pts, step_count := stC.step_count + 1 }
    | .error _ => .error stC

/-- Model of `pain_points_agent`: try the LLM (a parsed JSON array is kept
as stripped strings, dropping empties), fall back to the rules when the
result is missing or empty.  The rule-based fallback can raise (unhashable
parsed entity values reaching the dedup set), in which case the exception
escapes the agent with the counters already bumped. -/
def pain_points_agent (call_state : CallState) (tools : Tools) :
    Except CallState CallState :=
  match tools.llm with
  | none => painPointsFinish call_state 0 0 none
  | some f =>
    match f "pain_points" with
    | .fail => painPointsFinish call_state 1 0 none
    | .reply _ none => painPointsFinish call_state 1 1 none
    | .reply _ (some j) => painPointsFinish call_state 1 1 (parsedStrList j)

/-! ## Actions agent (`agents/actions.py`) -/

/-- Order-preserving dedup for a string list (the actions are always
strings, so no hashability failure is possible). -/
def pyDedupStr (xs : List String) : List String :=
  go xs []
where
  /-- Walk the list keeping the first occurrence of each element. -/
  go : List String → List String → List String
    | [], _ => []
    | p :: rest, seen =>
      if seen.contains p then go rest seen
      else p :: go rest (p :: seen)

/-- Actions contributed by one pain point (`p.lower()` raises when the pain
point is not a string). -/
def actionsForPoint (p : Json) : Except Unit (List String) := do
  let pl ←
    match p with
    | .str s => pure (pyLower s)
    | _ => .error ()
  if pyIn "refund" pl || pyIn "chargeback" pl then
    pure [ "Check refund/chargeback status and expedite if delayed.",
           "Provide clear timeline and confirmation email for the refund." ]
  else if pyIn "login" pl || pyIn "authentication" pl then
    pure [ "Walk customer through login reset or credential recovery.",
           "Check for account lock or security flags and resolve." ]
  else if pyIn "fee" pl || pyIn "overcharged" pl then
    pure [ "Review recent charges and waive fees if misapplied." ]
  else if pyIn "repeated unresolved contacts" pl then
    pure [ "Escalate to Tier-2 support with full case context." ]
  else
    pure [ "Investigate and follow standard playbook for: " ++ pyStr p ]

/-- Model of `_rule_based_actions`: map pain points to playbook actions, add
an escalation for strongly negative sentiment, dedup, and default when
empty.  Raises when a pain point is not a string. -/
def rule_based_actions (call_state : CallState) : Except Unit (List String) := do
  let sentiment := orS call_state.sentiment "neutral"
  let perPoint ← call_state.pain_points.foldlM
    (fun acc p => do
      let acts ← actionsForPoint p
      pure (acc ++ acts)) []
  let actions := perPoint ++
    (if sentiment = "very_negative" ∨ sentiment = "negative" then
      ["Offer apology and consider goodwill credit or compensation."] else [])
  let deduped := pyDedupStr actions
  pure (if deduped.isEmpty then
    ["Follow standard support procedure and update CRM with call summary."]
  else deduped)

/-- Shared tail of `actions_agent`: keep a nonempty LLM result, else run
the rule-based fallback (whose error escapes with the counters already
bumped), store the actions and count the step. -/
def actionsFinish (call_state : CallState) (dCalls dSucc : ℕ)
    (llmActions : Option (List String)) : Except CallState CallState :=
  let stC := { call_state with
               tool_calls := call_state.tool_calls + dCalls
               tool_successes := call_state.tool_successes + dSucc }
  let acts? : Option (List String) :=
    match llmActions with
    | some as => if as.isEmpty then none else some as
    | none => none
  match acts? with
  | some acts =>
    .ok { stC with recommended_actions := acts, step_count := stC.step_count + 1 }
  | none =>
    match rule_based_actions stC with
    | .ok acts =>
      .ok { stC with recommended_actions := acts, step_count := stC.step_count + 1 }
    | .error _ => .error stC

/-- Model of `actions_agent`: try the LLM (parsed JSON array kept as
stripped strings, dropping empties), fall back to `_rule_based_actions`
when missing or empty.  The fallback can raise on a non-string pain point,
escaping the agent with the counters already bumped. -/
def actions_agent (call_state : CallState) (tools : Tools) :
    Except CallState CallState :=
  match tools.llm with
  | none => actionsFinish call_state 0 0 none
  | some f =>
    match f "actions" with
    | .fail => actionsFinish call_state 1 0 none
    | .reply _ none => actionsFinish call_state 1 1 none
    | .reply _ (some j) => actionsFinish call_state 1 1 (parsedStrList j)

/-! ## Evaluation agent (`agents/evaluation.py`) -/

/-- Model of `_default_llm_scores`. -/
def default_llm_scores : List (String × Json) :=
  [ ("faithfulness_score", .num 1), ("coverage_score", .num 1),
    ("consistency_score", .num 1),
    ("notes", .str "LLM evaluation not available; using default scores.") ]

/-- The three LLM score keys checked by the evaluation agent. -/
def scoreKeys : List String :=
  ["faithfulness_score", "coverage_score", "consistency_score"]

/-- Fill missing score keys with the 1.0 defaults and a missing `notes`
with `""`; model of the key-fixup loop over a parsed dict. -/
def fillEvalKeys (kvs : List (String × Json)) : List (String × Json) :=
  let fill := fun (kvs : List (String × Json)) (k : String) =>
    if jHasKey kvs k then kvs else kvs ++ [(k, Json.num 1)]
  let kvs := fill (fill (fill kvs "faithfulness_score") "coverage_score") "consistency_score"
  if jHasKey kvs "notes" then kvs else kvs ++ [("notes", .str "")]

/-- Outcome of the `try` body on a parsed evaluation reply.  A parsed dict
is key-fixed; a parsed list or string containing all four keys survives the
`in` checks and reaches the merge as a non-dict (`none` here — its `.get`
raises there); every other shape raises inside the `try`, falling back to
the defaults. -/
def parsedEvalScores (j : Json) : Option (List (String × Json)) :=
  match j with
  | .obj kvs => some (fillEvalKeys kvs)
  | .arr xs =>
    if (scoreKeys ++ ["notes"]).all (fun k => xs.any (fun x => pyEq x (.str k))) then
      none
    else some default_llm_scores
  | .str s =>
    if (scoreKeys ++ ["notes"]).all (fun k => pyIn k s) then none
    else some default_llm_scores
  | _ => some default_llm_scores

/-- Shared tail of `evaluation_agent`: `none` scores model a non-dict
`llm_scores` surviving the `in` checks (its `.get` raises at the merge);
otherwise `float(...)` each score — a non-convertible value raises — and on
success merge the basic metrics and scores into `call_state.evaluation` and
count the step.  Failures escape with the counters already bumped. -/
def evalFinish (now : ℚ) (call_state : CallState) (dCalls dSucc : ℕ)
    (scores? : Option (List (String × Json))) : Except CallState CallState :=
  let stC := { call_state with
               tool_calls := call_state.tool_calls + dCalls
               tool_successes := call_state.tool_successes + dSucc }
  match scores? with
  | none => .error stC
  | some llm_scores =>
    match jToFloat (jGetD llm_scores "faithfulness_score" (.num 1)),
        jToFloat (jGetD llm_scores "coverage_score" (.num 1)),
        jToFloat (jGetD llm_scores "consistency_score" (.num 1)) with
    | .ok fv, .ok cv, .ok sv =>
      .ok { stC with
            evaluation := compute_basic_eval stC now ++
              [ ("faithfulness_score", .num fv), ("coverage_score", .num cv),
                ("consistency_score", .num sv),
                ("eval_notes", jGetD llm_scores "notes" (.str "")) ]
            step_count := stC.step_count + 1 }
    | _, _, _ => .error stC

/-- Model of `evaluation_agent` (see `parsedEvalScores` and `evalFinish`
for the parse handling and the merge). -/
def evaluation_agent (now : ℚ) (call_state : CallState) (tools : Tools) :
    Except CallState CallState :=
  match tools.llm with
  | none => evalFinish now call_state 0 0 (some default_llm_scores)
  | some f =>
    match f "evaluation" with
    | .fail => evalFinish now call_state 1 0 (some default_llm_scores)
    | .reply _ none => evalFinish now call_state 1 1 (some default_llm_scores)
    | .reply _ (some j) => evalFinish now call_state 1 1 (parsedEvalScores j)

/-! ## Registry and supervisor (`graph/agents.py`, `graph/supervisor.py`) -/

/-- Common type of all agents: total in the call state, but able to let a
Python exception escape (carrying the mutated state). -/
def AgentFn := CallState → Tools → Except CallState CallState

/-- Model of `AGENT_REGISTRY` (the wall-clock parameter is threaded to the
evaluation agent, which reads `time.time()`). -/
def AGENT_REGISTRY (now : ℚ) : List (String × AgentFn) :=
  [ ("cleaning", cleaning_agent),
    ("entities", entities_agent),
    ("summarization", summarization_agent),
    ("sentiment", sentiment_agent),
    ("frustration_loop", frustration_loop_agent),
    ("pain_points", pain_points_agent),
    ("actions", actions_agent),
    ("evaluation", evaluation_agent now) ]

/-- Model of `AGENT_EXECUTION_ORDER` (evaluation intentionally omitted; the
supervisor runs it separately). -/
def AGENT_EXECUTION_ORDER : List String :=
  ["cleaning", "entities", "summarization", "sentiment", "frustration_loop",
   "pain_points", "actions"]

/-- Model of `get_agent`: fetch by name, raising a `KeyError` with a
distinct `Unknown agent name` message when absent. -/
def get_agent (registry : List (String × AgentFn)) (name : String) :
    Except String AgentFn :=
  match registry.find? (fun kv => kv.1 = name) with
  | some kv => .ok kv.2
  | none => .error ("Unknown agent name: " ++ name)

/-- Exceptions that can escape `run_pipeline`: a `KeyError` from the
registry lookup (configuration failure) or a Python exception raised inside
an agent or the memory update, carrying the mutated call state. -/
inductive PipeErr where
  | keyError (msg : String) : PipeErr
  | exc (state : CallState) : PipeErr
deriving Repr

/-- Run the named agents in order, threading the call state; a lookup
failure or an escaping agent exception aborts the run. -/
def runAgents (registry : List (String × AgentFn)) (names : List String)
    (s : CallState) (tools : Tools) : Except PipeErr CallState :=
  match names with
  | [] => .ok s
  | n :: rest =>
    match get_agent registry n with
    | .error m => .error (.keyError m)
    | .ok f =>
      match f s tools with
      | .error st => .error (.exc st)
      | .ok s' => runAgents registry rest s' tools

/-- Model of `run_pipeline`, parameterised by the registry: initialise the
call state, run the agents of `AGENT_EXECUTION_ORDER`, run the evaluation
agent when (and only when) it is registered — its absence is a skip, per
the supervisor's `except KeyError: pass` — and finally fold the call into
memory when requested.  `t0` is the `time.time()` of state creation. -/
def run_pipeline_with (registry : List (String × AgentFn)) (raw_transcript : String)
    (tools : Tools) (update_memory : Bool) (memory : MemoryState) (t0 : ℚ) :
    Except PipeErr (CallState × MemoryState) := do
  let call_state : CallState := { raw_transcript := raw_transcript, start_ts := t0 }
  let call_state ← runAgents registry AGENT_EXECUTION_ORDER call_state tools
  let call_state ←
    match registry.find? (fun kv => kv.1 = "evaluation") with
    | none => pure call_state
    | some kv =>
      match kv.2 call_state tools with
      | .error st => Except.error (.exc st)
      | .ok s' => pure s'
  if update_memory then
    match update_memory_from_call memory call_state with
    | .error _ => .error (.exc call_state)
    | .ok m => .ok (call_state, m)
  else .ok (call_state, memory)

/-- Model of `run_pipeline` with the repository's registry. -/
def run_pipeline (raw_transcript : String) (tools : Tools) (update_memory : Bool)
    (memory : MemoryState) (t0 now : ℚ) : Except PipeErr (CallState × MemoryState) :=
  run_pipeline_with (AGENT_REGISTRY now) raw_transcript tools update_memory memory t0

/-- State reached by an agent application, whether it returned or raised
(the exception carries the in-place-mutated state). -/
def outState : Except CallState CallState → CallState
  | .ok s => s
  | .error s => s

/-- Intermediate call states of a run: the state after each agent
application, cut short at a lookup failure and ending at the state carried
by an escaping exception. -/
def agentTrace (registry : List (String × AgentFn)) (names : List String)
    (s : CallState) (tools : Tools) : List CallState :=
  match names with
  | [] => []
  | n :: rest =>
    match get_agent registry n with
    | .error _ => []
    | .ok f =>
      match f s tools with
      | .ok s' => s' :: agentTrace registry rest s' tools
      | .error st => [st]

/-- Every call state observed during a pipeline run, in order: the freshly
created state, then the state after each agent of the execution order, then
the state after the separately run evaluation agent. -/
def pipelineTrace (raw_transcript : String) (tools : Tools) (t0 now : ℚ) :
    List CallState :=
  let s0 : CallState := { raw_transcript := raw_transcript, start_ts := t0 }
  s0 :: agentTrace (AGENT_REGISTRY now) (AGENT_EXECUTION_ORDER ++ ["evaluation"]) s0 tools

/-! ## Claim theorems -/

/-- C5: `get_messages_for_agent state X T?` returns exactly the subsequence
of `state.messages` whose `to` field equals `X` or `"any"` (further
restricted to messages of type `T` when `T` is given), in append (FIFO)
order, and never includes a message addressed to a different, non-`"any"`
agent: the result is the order-preserving filter of the message log, a
sublist of it, and every returned message is addressed to `X` or `"any"`
and comes from the log. -/
theorem get_messages_for_agent_spec (state : CallState) (agent_name : String)
    (msg_type : Option String) :
    get_messages_for_agent state agent_name msg_type =
      state.messages.filter (fun m =>
        (m.to_agent = agent_name || m.to_agent = "any") &&
        (match msg_type with | none => true | some t => m.msg_type = t)) ∧
    (get_messages_for_agent state agent_name msg_type).Sublist state.messages ∧
    (∀ m ∈ get_messages_for_agent state agent_name msg_type,
      (m.to_agent = agent_name ∨ m.to_agent = "any") ∧ m ∈ state.messages) := by
  have hfilter : get_messages_for_agent state agent_name msg_type =
      state.messages.filter (fun m =>
        (m.to_agent = agent_name || m.to_agent = "any") &&
        (match msg_type with | none => true | some t => m.msg_type = t)) := by
    cases msg_type with
    | none => simp [get_messages_for_agent]
    | some t =>
      simp only [get_messages_for_agent, List.filter_filter]
      apply List.filter_congr
      intro m _
      simp [Bool.and_comm]
  refine ⟨hfilter, ?_, ?_⟩
  · rw [hfilter]; exact List.filter_sublist _
  · intro m hm
    rw [hfilter] at hm
    have hpred := List.of_mem_filter hm
    have hmem := List.mem_of_mem_filter hm
    simp only [Bool.and_eq_true, Bool.or_eq_true, decide_eq_true_eq] at hpred
    exact ⟨hpred.1, hmem⟩

/-- C6: `send_message` extends `state.messages` by exactly one record
`{from, to, type, payload}` appended at the end, leaves every previously
appended message in place (in particular no message is ever removed: the
old log is a prefix of the new one and every old message is still present)
and leaves every other `CallState` field unchanged.
`get_messages_for_agent` is a pure function of the state — it returns a
fresh list and cannot mutate — so re-reading after a send sees exactly the
old result extended by the new message when (and only when) it is
addressed to the queried agent. -/
theorem send_message_spec (state : CallState)
    (from_agent to_agent msg_type : String) (payload : List (String × Json)) :
    (send_message state from_agent to_agent msg_type payload).messages =
      state.messages ++
        [{ from_agent := from_agent, to_agent := to_agent,
           msg_type := msg_type, payload := payload }] ∧
    (∀ m ∈ state.messages,
      m ∈ (send_message state from_agent to_agent msg_type payload).messages) ∧
    (send_message state from_agent to_agent msg_type payload).call_id = state.call_id ∧
    (send_message state from_agent to_agent msg_type payload).raw_transcript =
      state.raw_transcript ∧
    (send_message state from_agent to_agent msg_type payload).cleaned_transcript =
      state.cleaned_transcript ∧
    (send_message state from_agent to_agent msg_type payload).utterances =
      state.utterances ∧
    (send_message state from_agent to_agent msg_type payload).entities =
      state.entities ∧
    (send_message state from_agent to_agent msg_type payload).summary =
      state.summary ∧
    (send_message state from_agent to_agent msg_type payload).sentiment =
      state.sentiment ∧
    (send_message state from_agent to_agent msg_type payload).frustration_timeline =
      state.frustration_timeline ∧
    (send_message state from_agent to_agent msg_type payload).pain_points =
      state.pain_points ∧
    (send_message state from_agent to_agent msg_type payload).recommended_actions =
      state.recommended_actions ∧
    (send_message state from_agent to_agent msg_type payload).evaluation =
      state.evaluation ∧
    (send_message state from_agent to_agent msg_type payload).start_ts =
      state.start_ts ∧
    (send_message state from_agent to_agent msg_type payload).step_count =
      state.step_count ∧
    (send_message state from_agent to_agent msg_type payload).tool_calls =
      state.tool_calls ∧
    (send_message state from_agent to_agent msg_type payload).tool_successes =
      state.tool_successes := by
  refine ⟨rfl, ?_, rfl, rfl, rfl, rfl, rfl, rfl, rfl, rfl, rfl, rfl, rfl, rfl,
    rfl, rfl, rfl⟩
  intro m hm
  simp [send_message, hm]

/-- C9: `compute_basic_eval` is a pure function of the call state (it is a
Lean function of the state and the clock reading, returning a fresh dict
and modifying nothing); its `tool_success_rate` equals
`tool_successes / tool_calls` when `tool_calls > 0` and exactly `1.0` when
`tool_calls = 0`, and it passes `tool_calls`, `tool_successes` and
`step_count` through verbatim. -/
theorem compute_basic_eval_spec (call_state : CallState) (now : ℚ) :
    (0 < call_state.tool_calls →
      jGet (compute_basic_eval call_state now) "tool_success_rate" =
        some (.num ((call_state.tool_successes : ℚ) / (call_state.tool_calls : ℚ)))) ∧
    (call_state.tool_calls = 0 →
      jGet (compute_basic_eval call_state now) "tool_success_rate" =
        some (.num 1)) ∧
    jGet (compute_basic_eval call_state now) "tool_calls" =
      some (.num call_state.tool_calls) ∧
    jGet (compute_basic_eval call_state now) "tool_successes" =
      some (.num call_state.tool_successes) ∧
    jGet (compute_basic_eval call_state now) "step_count" =
      some (.num call_state.step_count) := by
  refine ⟨?_, ?_, ?_, ?_, ?_⟩ <;>
    simp [compute_basic_eval, jGet, List.find?] <;> omega

/-- Witness for C9 at concrete states: a state with two tool calls and one
success has rate `1/2`, and a state with no tool calls has rate `1`. -/
theorem compute_basic_eval_spec_witness :
    jGet (compute_basic_eval { tool_calls := 2, tool_successes := 1 } 0)
        "tool_success_rate" = some (.num ((1 : ℚ) / (2 : ℚ))) ∧
    jGet (compute_basic_eval { tool_calls := 0 } 0) "tool_success_rate" =
      some (.num 1) := by
  constructor
  · have h := (compute_basic_eval_spec { tool_calls := 2, tool_successes := 1 } 0).1
      (by decide)
    simpa using h
  · exact (compute_basic_eval_spec { tool_calls := 0 } 0).2.1 rfl

/-! ## C1: running averages -/

/-- Call state supplying all three evaluation scores; used to state the
running-average claims. -/
def mkScoredCall (t : ℚ × ℚ × ℚ) : CallState :=
  { evaluation := [ ("faithfulness_score", .num t.1),
                    ("coverage_score", .num t.2.1),
                    ("consistency_score", .num t.2.2) ] }

/-- Fold a sequence of calls into memory with `update_memory_from_call`. -/
def foldMemory (memory : MemoryState) (calls : List CallState) :
    Except Unit MemoryState :=
  calls.foldlM update_memory_from_call memory

/-- Evaluation of one fold step on an all-scores call. -/
theorem update_mkScored (m : MemoryState) (t : ℚ × ℚ × ℚ) :
    update_memory_from_call m (mkScoredCall t) = .ok
      { m with
        total_calls := m.total_calls + 1
        sentiment_counts := bumpStrCount m.sentiment_counts "unknown"
        avg_faithfulness := updateRunningAvg m.avg_faithfulness t.1 (m.total_calls + 1)
        avg_coverage := updateRunningAvg m.avg_coverage t.2.1 (m.total_calls + 1)
        avg_consistency := updateRunningAvg m.avg_consistency t.2.2 (m.total_calls + 1) } := rfl

/-- One incremental-average step, in product form. -/
theorem updateRunningAvg_mul (a v : ℚ) (n : ℕ) :
    updateRunningAvg a v (n + 1) * ((n : ℚ) + 1) = a * n + v := by
  have hne : ((n : ℚ) + 1) ≠ 0 := by positivity
  unfold updateRunningAvg
  push_cast
  field_simp
  ring

/-- Folding all-scores calls accumulates score sums against the global call
count. -/
theorem foldMemory_scored (ts : List (ℚ × ℚ × ℚ)) : ∀ (m : MemoryState),
    ∃ m', foldMemory m (ts.map mkScoredCall) = .ok m' ∧
      m'.total_calls = m.total_calls + ts.length ∧
      m'.avg_faithfulness * ((m.total_calls : ℚ) + ts.length) =
        m.avg_faithfulness * m.total_calls + (ts.map (fun t => t.1)).sum ∧
      m'.avg_coverage * ((m.total_calls : ℚ) + ts.length) =
        m.avg_coverage * m.total_calls + (ts.map (fun t => t.2.1)).sum ∧
      m'.avg_consistency * ((m.total_calls : ℚ) + ts.length) =
        m.avg_consistency * m.total_calls + (ts.map (fun t => t.2.2)).sum := by
  induction ts with
  | nil =>
    intro m
    exact ⟨m, rfl, by simp, by simp, by simp, by simp⟩
  | cons t ts ih =>
    intro m
    obtain ⟨m', hfold, htot, hf, hc, hs⟩ := ih
      { m with
        total_calls := m.total_calls + 1
        sentiment_counts := bumpStrCount m.sentiment_counts "unknown"
        avg_faithfulness := updateRunningAvg m.avg_faithfulness t.1 (m.total_calls + 1)
        avg_coverage := updateRunningAvg m.avg_coverage t.2.1 (m.total_calls + 1)
        avg_consistency := updateRunningAvg m.avg_consistency t.2.2 (m.total_calls + 1) }
    dsimp only at htot hf hc hs
    refine ⟨m', ?_, ?_, ?_, ?_, ?_⟩
    · show foldMemory m (mkScoredCall t :: ts.map mkScoredCall) = .ok m'
      unfold foldMemory at hfold ⊢
      rw [List.foldlM_cons, update_mkScored]
      simpa using hfold
    · rw [htot]; simp; omega
    · have key := updateRunningAvg_mul m.avg_faithfulness t.1 m.total_calls
      simp only [List.length_cons, List.map_cons, List.sum_cons]
      push_cast
      push_cast at hf key
      linear_combination hf + key
    · have key := updateRunningAvg_mul m.avg_coverage t.2.1 m.total_calls
      simp only [List.length_cons, List.map_cons, List.sum_cons]
      push_cast
      push_cast at hc key
      linear_combination hc + key
    · have key := updateRunningAvg_mul m.avg_consistency t.2.2 m.total_calls
      simp only [List.length_cons, List.map_cons, List.sum_cons]
      push_cast
      push_cast at hs key
      linear_combination hs + key

/-- C1 (counterexample): folding a call that omits `faithfulness_score` and
then a call that supplies `faithfulness_score = 1.0` into a fresh memory
yields `avg_faithfulness = 1/2` — the second update divides by the global
post-increment call count `n = 2` — whereas the arithmetic mean of the
supplied values (just `1.0`) is `1`, so the claimed divisor (the number of
calls that supplied the field) does not describe `update_memory_from_call`. -/
theorem update_memory_global_divisor_cex :
    update_memory_from_call freshMemory {} = .ok
      { total_calls := 1, sentiment_counts := [("unknown", 1)] } ∧
    update_memory_from_call { total_calls := 1, sentiment_counts := [("unknown", 1)] }
        { evaluation := [("faithfulness_score", Json.num 1)] } = .ok
      { total_calls := 2, sentiment_counts := [("unknown", 2)],
        avg_faithfulness := 1 / 2 } ∧
    ((1 / 2 : ℚ)) ≠ 1 := by
  refine ⟨rfl, ?_, by norm_num⟩
  have h2 : update_memory_from_call { total_calls := 1, sentiment_counts := [("unknown", 1)] }
      { evaluation := [("faithfulness_score", Json.num 1)] } = .ok
      { total_calls := 2, sentiment_counts := [("unknown", 2)],
        avg_faithfulness := updateRunningAvg 0 1 2 } := rfl
  rw [h2]
  norm_num [updateRunningAvg]

/-- C1 (amended): starting from a fresh `MemoryState`, folding calls
`c_1..c_n` with `update_memory_from_call` makes `avg_faithfulness` the
arithmetic mean of the supplied `faithfulness_score` values provided every
call supplies the field (and likewise for `coverage_score`/`avg_coverage`
and `consistency_score`/`avg_consistency`); when some call omits a field,
that update leaves the average untouched but later updates still divide by
the global post-increment call count, so the all-supplied case is the one
in which the mean law holds. -/
theorem update_memory_supplied_mean (ts : List (ℚ × ℚ × ℚ)) (h : ts ≠ []) :
    ∃ m', foldMemory freshMemory (ts.map mkScoredCall) = .ok m' ∧
      m'.total_calls = ts.length ∧
      m'.avg_faithfulness = (ts.map (fun t => t.1)).sum / ts.length ∧
      m'.avg_coverage = (ts.map (fun t => t.2.1)).sum / ts.length ∧
      m'.avg_consistency = (ts.map (fun t => t.2.2)).sum / ts.length := by
  obtain ⟨m', hfold, htot, hf, hc, hs⟩ := foldMemory_scored ts freshMemory
  have hlen : ((ts.length : ℚ)) ≠ 0 := by
    have h0 : ts.length ≠ 0 := by simpa [List.length_eq_zero] using h
    exact_mod_cast h0
  simp only [freshMemory] at htot hf hc hs
  norm_num at htot hf hc hs
  refine ⟨m', hfold, htot, ?_, ?_, ?_⟩
  · rw [eq_div_iff hlen]; linarith [hf]
  · rw [eq_div_iff hlen]; linarith [hc]
  · rw [eq_div_iff hlen]; linarith [hs]

/-- Witness for the amended C1 at the one-element sequence supplying
`(1, 0, 1)`. -/
theorem update_memory_supplied_mean_witness :
    ∃ m', foldMemory freshMemory
        (([((1 : ℚ), (0 : ℚ), (1 : ℚ))]).map mkScoredCall) = .ok m' ∧
      m'.total_calls = ([((1 : ℚ), (0 : ℚ), (1 : ℚ))]).length ∧
      m'.avg_faithfulness =
        (([((1 : ℚ), (0 : ℚ), (1 : ℚ))]).map (fun t => t.1)).sum /
          ([((1 : ℚ), (0 : ℚ), (1 : ℚ))]).length ∧
      m'.avg_coverage =
        (([((1 : ℚ), (0 : ℚ), (1 : ℚ))]).map (fun t => t.2.1)).sum /
          ([((1 : ℚ), (0 : ℚ), (1 : ℚ))]).length ∧
      m'.avg_consistency =
        (([((1 : ℚ), (0 : ℚ), (1 : ℚ))]).map (fun t => t.2.2)).sum /
          ([((1 : ℚ), (0 : ℚ), (1 : ℚ))]).length :=
  update_memory_supplied_mean [((1 : ℚ), (0 : ℚ), (1 : ℚ))] (by simp)

/-! ## Agent-level lemmas -/

/-- Tool-counter effect of the pain-points tail: the deltas are applied
whether the agent returns or its fallback raises. -/
theorem painPointsFinish_counters (s : CallState) (dc ds : ℕ)
    (lp : Option (List String)) :
    (outState (painPointsFinish s dc ds lp)).tool_calls = s.tool_calls + dc ∧
    (outState (painPointsFinish s dc ds lp)).tool_successes = s.tool_successes + ds := by
  unfold painPointsFinish
  rcases lp with _ | ps
  · simp only []
    cases hr : rule_based_pain_points
        { s with tool_calls := s.tool_calls + dc,
                 tool_successes := s.tool_successes + ds } <;>
      simp [outState, hr]
  · simp only []
    rcases hps : ps.isEmpty
    · simp [outState, hps]
    · simp only [hps]
      cases hr : rule_based_pain_points
          { s with tool_calls := s.tool_calls + dc,
                   tool_successes := s.tool_successes + ds } <;>
        simp [outState, hr]

/-- Tool-counter effect of the actions tail. -/
theorem actionsFinish_counters (s : CallState) (dc ds : ℕ)
    (la : Option (List String)) :
    (outState (actionsFinish s dc ds la)).tool_calls = s.tool_calls + dc ∧
    (outState (actionsFinish s dc ds la)).tool_successes = s.tool_successes + ds := by
  unfold actionsFinish
  rcases la with _ | as
  · simp only []
    cases hr : rule_based_actions
        { s with tool_calls := s.tool_calls + dc,
                 tool_successes := s.tool_successes + ds } <;>
      simp [outState, hr]
  · simp only []
    rcases has : as.isEmpty
    · simp [outState, has]
    · simp only [has]
      cases hr : rule_based_actions
          { s with tool_calls := s.tool_calls + dc,
                   tool_successes := s.tool_successes + ds } <;>
        simp [outState, hr]

/-- Tool-counter effect of the evaluation tail. -/
theorem evalFinish_counters (now : ℚ) (s : CallState) (dc ds : ℕ)
    (sc : Option (List (String × Json))) :
    (outState (evalFinish now s dc ds sc)).tool_calls = s.tool_calls + dc ∧
    (outState (evalFinish now s dc ds sc)).tool_successes = s.tool_successes + ds := by
  unfold evalFinish
  rcases sc with _ | llm_scores
  · simp [outState]
  · simp only []
    rcases jToFloat (jGetD llm_scores "faithfulness_score" (.num 1)) with e1 | v1 <;>
      rcases jToFloat (jGetD llm_scores "coverage_score" (.num 1)) with e2 | v2 <;>
      rcases jToFloat (jGetD llm_scores "consistency_score" (.num 1)) with e3 | v3 <;>
      simp [outState]

/-! ## C2: tool counters around external calls -/

/-- C2 (counterexample): the pain-points agent, given a response that
returns without error but fails to parse (`json.loads` raises on
`"not json"`), still increments `tool_successes` — the increment sits
before the parse — while the output falls back to the rule-based sentinel,
which proves the parse did fail. -/
theorem tool_success_despite_parse_failure_cex :
    (outState (pain_points_agent { raw_transcript := "hello" }
        { llm := some (fun _ => .reply "not json" none) })).tool_calls = 1 ∧
    (outState (pain_points_agent { raw_transcript := "hello" }
        { llm := some (fun _ => .reply "not json" none) })).tool_successes = 1 ∧
    (outState (pain_points_agent { raw_transcript := "hello" }
        { llm := some (fun _ => .reply "not json" none) })).pain_points =
      [.str unclearPainPoint] := by
  exact ⟨rfl, rfl, rfl⟩

/-- C2 (amended): in every agent the claim's sources cite (pain points,
actions, evaluation), `tool_calls` is incremented before the external call,
and `tool_successes` is incremented as soon as the response content is
successfully returned and extracted, before `json.loads`: a returned
response increments both counters by exactly one whatever its parse
outcome (the agent then falls back to rule-based output on a parse
failure), while a raised call increments only `tool_calls`. -/
theorem tool_success_counted_before_parse (s : CallState) (tools : Tools)
    (f : String → LLMReply) (now : ℚ) (hllm : tools.llm = some f) :
    (∀ content parsed, f "pain_points" = .reply content parsed →
      (outState (pain_points_agent s tools)).tool_calls = s.tool_calls + 1 ∧
      (outState (pain_points_agent s tools)).tool_successes = s.tool_successes + 1) ∧
    (f "pain_points" = .fail →
      (outState (pain_points_agent s tools)).tool_calls = s.tool_calls + 1 ∧
      (outState (pain_points_agent s tools)).tool_successes = s.tool_successes) ∧
    (∀ content parsed, f "actions" = .reply content parsed →
      (outState (actions_agent s tools)).tool_calls = s.tool_calls + 1 ∧
      (outState (actions_agent s tools)).tool_successes = s.tool_successes + 1) ∧
    (f "actions" = .fail →
      (outState (actions_agent s tools)).tool_calls = s.tool_calls + 1 ∧
      (outState (actions_agent s tools)).tool_successes = s.tool_successes) ∧
    (∀ content parsed, f "evaluation" = .reply content parsed →
      (outState (evaluation_agent now s tools)).tool_calls = s.tool_calls + 1 ∧
      (outState (evaluation_agent now s tools)).tool_successes = s.tool_successes + 1) ∧
    (f "evaluation" = .fail →
      (outState (evaluation_agent now s tools)).tool_calls = s.tool_calls + 1 ∧
      (outState (evaluation_agent now s tools)).tool_successes = s.tool_successes) := by
  refine ⟨?_, ?_, ?_, ?_, ?_, ?_⟩
  · intro content parsed hrep
    unfold pain_points_agent
    rw [hllm]
    rcases parsed with _ | j <;> simp only [hrep] <;>
      exact ⟨(painPointsFinish_counters s 1 1 _).1, (painPointsFinish_counters s 1 1 _).2⟩
  · intro hfail
    unfold pain_points_agent
    rw [hllm]
    simp only [hfail]
    exact ⟨(painPointsFinish_counters s 1 0 _).1, by
      simpa using (painPointsFinish_counters s 1 0 _).2⟩
  · intro content parsed hrep
    unfold actions_agent
    rw [hllm]
    rcases parsed with _ | j <;> simp only [hrep] <;>
      exact ⟨(actionsFinish_counters s 1 1 _).1, (actionsFinish_counters s 1 1 _).2⟩
  · intro hfail
    unfold actions_agent
    rw [hllm]
    simp only [hfail]
    exact ⟨(actionsFinish_counters s 1 0 _).1, by
      simpa using (actionsFinish_counters s 1 0 _).2⟩
  · intro content parsed hrep
    unfold evaluation_agent
    rw [hllm]
    rcases parsed with _ | j <;> simp only [hrep] <;>
      exact ⟨(evalFinish_counters now s 1 1 _).1, (evalFinish_counters now s 1 1 _).2⟩
  · intro hfail
    unfold evaluation_agent
    rw [hllm]
    simp only [hfail]
    exact ⟨(evalFinish_counters now s 1 0 _).1, by
      simpa using (evalFinish_counters now s 1 0 _).2⟩

/-- Witness for the amended C2 at a stub that returns unparseable text and
at a stub that always raises, on a fresh call state. -/
theorem tool_success_counted_before_parse_witness :
    ((outState (pain_points_agent {} { llm := some (fun _ => .reply "xy" none) })).tool_calls = 0 + 1 ∧
      (outState (pain_points_agent {} { llm := some (fun _ => .reply "xy" none) })).tool_successes = 0 + 1) ∧
    ((outState (actions_agent {} { llm := some (fun _ => .fail) })).tool_calls = 0 + 1 ∧
      (outState (actions_agent {} { llm := some (fun _ => .fail) })).tool_successes = 0) ∧
    ((outState (evaluation_agent 0 {} { llm := some (fun _ => .reply "xy" none) })).tool_calls = 0 + 1 ∧
      (outState (evaluation_agent 0 {} { llm := some (fun _ => .reply "xy" none) })).tool_successes = 0 + 1) := by
  refine ⟨?_, ?_, ?_⟩
  · exact (tool_success_counted_before_parse {} _ (fun _ => .reply "xy" none) 0 rfl).1
      "xy" none rfl
  · exact (tool_success_counted_before_parse {} _ (fun _ => .fail) 0 rfl).2.2.2.1 rfl
  · exact (tool_success_counted_before_parse {} _ (fun _ => .reply "xy" none) 0 rfl).2.2.2.2.1
      "xy" none rfl

/-! ## C7: counter monotonicity -/

/-- Relation between successive call states that every agent maintains on
the counters: monotone growth and preservation of
`tool_successes ≤ tool_calls`. -/
def counterOk (s s' : CallState) : Prop :=
  s.tool_calls ≤ s'.tool_calls ∧ s.tool_successes ≤ s'.tool_successes ∧
  s.step_count ≤ s'.step_count ∧
  (s.tool_successes ≤ s.tool_calls → s'.tool_successes ≤ s'.tool_calls)

/-- The cleaning tail maintains the counter relation. -/
theorem cleaningFinish_counterOk (s : CallState) (dc ds : ℕ) (c : String)
    (h : ds ≤ dc) : counterOk s (outState (cleaningFinish s dc ds c)) := by
  unfold cleaningFinish
  simp [counterOk, outState]
  omega

/-- The entities tail maintains the counter relation. -/
theorem entitiesFinish_counterOk (s : CallState) (dc ds : ℕ) (e : Json)
    (h : ds ≤ dc) : counterOk s (outState (entitiesFinish s dc ds e)) := by
  unfold entitiesFinish
  simp [counterOk, outState, send_message]
  omega

/-- The summarization tail maintains the counter relation. -/
theorem summarizationFinish_counterOk (s : CallState) (dc ds : ℕ) (x : String)
    (h : ds ≤ dc) : counterOk s (outState (summarizationFinish s dc ds x)) := by
  unfold summarizationFinish
  simp [counterOk, outState]
  omega

/-- The sentiment tail maintains the counter relation. -/
theorem sentimentFinish_counterOk (s : CallState) (dc ds : ℕ) (l : Option String)
    (h : ds ≤ dc) : counterOk s (outState (sentimentFinish s dc ds l)) := by
  unfold sentimentFinish
  simp [counterOk, outState, send_message]
  omega

/-- The frustration tail maintains the counter relation. -/
theorem frustrationFinish_counterOk (s : CallState) (us : List String)
    (dc ds : ℕ) (tl : List TimelineEntry) (h : ds ≤ dc) :
    counterOk s (outState (frustrationFinish s us dc ds tl)) := by
  unfold frustrationFinish
  simp [counterOk, outState, send_message]
  omega

/-- The pain-points tail maintains the counter relation. -/
theorem painPointsFinish_counterOk (s : CallState) (dc ds : ℕ)
    (lp : Option (List String)) (h : ds ≤ dc) :
    counterOk s (outState (painPointsFinish s dc ds lp)) := by
  unfold painPointsFinish
  rcases lp with _ | ps
  · simp only []
    cases hr : rule_based_pain_points
        { s with tool_calls := s.tool_calls + dc,
                 tool_successes := s.tool_successes + ds } <;>
      simp [counterOk, outState, hr] <;> omega
  · simp only []
    rcases hps : ps.isEmpty
    · simp [counterOk, outState, hps]
      omega
    · simp only [hps]
      cases hr : rule_based_pain_points
          { s with tool_calls := s.tool_calls + dc,
                   tool_successes := s.tool_successes + ds } <;>
        simp [counterOk, outState, hr] <;> omega

/-- The actions tail maintains the counter relation. -/
theorem actionsFinish_counterOk (s : CallState) (dc ds : ℕ)
    (la : Option (List String)) (h : ds ≤ dc) :
    counterOk s (outState (actionsFinish s dc ds la)) := by
  unfold actionsFinish
  rcases la with _ | as
  · simp only []
    cases hr : rule_based_actions
        { s with tool_calls := s.tool_calls + dc,
                 tool_successes := s.tool_successes + ds } <;>
      simp [counterOk, outState, hr] <;> omega
  · simp only []
    rcases has : as.isEmpty
    · simp [counterOk, outState, has]
      omega
    · simp only [has]
      cases hr : rule_based_actions
          { s with tool_calls := s.tool_calls + dc,
                   tool_successes := s.tool_successes + ds } <;>
        simp [counterOk, outState, hr] <;> omega

/-- The evaluation tail maintains the counter relation. -/
theorem evalFinish_counterOk (now : ℚ) (s : CallState) (dc ds : ℕ)
    (sc : Option (List (String × Json))) (h : ds ≤ dc) :
    counterOk s (outState (evalFinish now s dc ds sc)) := by
  unfold evalFinish
  rcases sc with _ | llm_scores
  · simp [counterOk, outState]
    omega
  · simp only []
    rcases jToFloat (jGetD llm_scores "faithfulness_score" (.num 1)) with e1 | v1 <;>
      rcases jToFloat (jGetD llm_scores "coverage_score" (.num 1)) with e2 | v2 <;>
      rcases jToFloat (jGetD llm_scores "consistency_score" (.num 1)) with e3 | v3 <;>
      simp [counterOk, outState] <;> omega

/-- The cleaning agent maintains the counter relation. -/
theorem cleaning_counterOk (s : CallState) (t : Tools) :
    counterOk s (outState (cleaning_agent s t)) := by
  unfold cleaning_agent
  (repeat' split) <;> apply cleaningFinish_counterOk <;> omega

/-- The entities agent maintains the counter relation. -/
theorem entities_counterOk (s : CallState) (t : Tools) :
    counterOk s (outState (entities_agent s t)) := by
  unfold entities_agent
  (repeat' split) <;> apply entitiesFinish_counterOk <;> omega

/-- The summarization agent maintains the counter relation. -/
theorem summarization_counterOk (s : CallState) (t : Tools) :
    counterOk s (outState (summarization_agent s t)) := by
  unfold summarization_agent
  split
  · simp [counterOk, outState]
  · (repeat' split) <;> apply summarizationFinish_counterOk <;> omega

/-- The sentiment agent maintains the counter relation. -/
theorem sentiment_counterOk (s : CallState) (t : Tools) :
    counterOk s (outState (sentiment_agent s t)) := by
  unfold sentiment_agent
  split
  · simp [counterOk, outState]
  · (repeat' split) <;> apply sentimentFinish_counterOk <;> omega

/-- The frustration-loop agent maintains the counter relation. -/
theorem frustration_counterOk (s : CallState) (t : Tools) :
    counterOk s (outState (frustration_loop_agent s t)) := by
  unfold frustration_loop_agent
  simp only []
  split
  · simp [counterOk, outState]
  · (repeat' split) <;> apply frustrationFinish_counterOk <;> omega

/-- The pain-points agent maintains the counter relation. -/
theorem pain_points_counterOk (s : CallState) (t : Tools) :
    counterOk s (outState (pain_points_agent s t)) := by
  unfold pain_points_agent
  (repeat' split) <;> apply painPointsFinish_counterOk <;> omega

/-- The actions agent maintains the counter relation. -/
theorem actions_counterOk (s : CallState) (t : Tools) :
    counterOk s (outState (actions_agent s t)) := by
  unfold actions_agent
  (repeat' split) <;> apply actionsFinish_counterOk <;> omega

/-- The evaluation agent maintains the counter relation. -/
theorem evaluation_counterOk (now : ℚ) (s : CallState) (t : Tools) :
    counterOk s (outState (evaluation_agent now s t)) := by
  unfold evaluation_agent
  (repeat' split) <;> apply evalFinish_counterOk <;> omega

/-- Every registered agent maintains the counter relation. -/
theorem registry_counterOk (now : ℚ) :
    ∀ kv ∈ AGENT_REGISTRY now, ∀ (s : CallState) (t : Tools),
      counterOk s (outState (kv.2 s t)) := by
  intro kv hkv s t
  simp only [AGENT_REGISTRY, List.mem_cons, List.not_mem_nil, or_false] at hkv
  rcases hkv with rfl | rfl | rfl | rfl | rfl | rfl | rfl | rfl
  · exact cleaning_counterOk s t
  · exact entities_counterOk s t
  · exact summarization_counterOk s t
  · exact sentiment_counterOk s t
  · exact frustration_counterOk s t
  · exact pain_points_counterOk s t
  · exact actions_counterOk s t
  · exact evaluation_counterOk now s t

/-- Monotone growth of the three counters between successive states. -/
def counterMono (s s' : CallState) : Prop :=
  s.tool_calls ≤ s'.tool_calls ∧ s.tool_successes ≤ s'.tool_successes ∧
  s.step_count ≤ s'.step_count

/-- Along any agent trace the counters grow monotonically and the
invariant `tool_successes <= tool_calls` is preserved. -/
theorem agentTrace_counters (reg : List (String × AgentFn))
    (hreg : ∀ kv ∈ reg, ∀ (s : CallState) (t : Tools),
      counterOk s (outState (kv.2 s t))) :
    ∀ (names : List String) (s : CallState) (t : Tools),
      s.tool_successes ≤ s.tool_calls →
      List.Chain counterMono s (agentTrace reg names s t) ∧
      ∀ x ∈ agentTrace reg names s t, x.tool_successes ≤ x.tool_calls := by
  intro names
  induction names with
  | nil => intro s t _; exact ⟨List.Chain.nil, by simp [agentTrace]⟩
  | cons n rest ih =>
    intro s t hinv
    unfold agentTrace
    unfold get_agent
    cases hfind : reg.find? (fun kv => kv.1 = n) with
    | none => exact ⟨List.Chain.nil, by simp⟩
    | some kv =>
      have hmem := List.mem_of_find?_eq_some hfind
      have hok := hreg kv hmem s t
      simp only []
      cases happ : kv.2 s t with
      | ok s' =>
        have hok' : counterOk s s' := by rw [happ] at hok; exact hok
        obtain ⟨hchain, hall⟩ := ih s' t (hok'.2.2.2 hinv)
        refine ⟨List.Chain.cons ⟨hok'.1, hok'.2.1, hok'.2.2.1⟩ hchain, ?_⟩
        intro x hx
        rcases List.mem_cons.mp hx with rfl | hx'
        · exact hok'.2.2.2 hinv
        · exact hall x hx'
      | error st =>
        have hok' : counterOk s st := by rw [happ] at hok; exact hok
        refine ⟨List.Chain.cons ⟨hok'.1, hok'.2.1, hok'.2.2.1⟩ List.Chain.nil, ?_⟩
        intro x hx
        rcases List.mem_singleton.mp hx with rfl
        exact hok'.2.2.2 hinv

/-- C7: at every point during a pipeline run — after state creation and
after each agent application, including one that ends in an escaping
exception carrying the mutated state — `tool_calls >= tool_successes`
holds on the `CallState`, and `tool_calls`, `tool_successes` and
`step_count` are monotonically non-decreasing across every agent
invocation (including the evaluation agent): no agent ever decreases
them. -/
theorem pipeline_counters_monotone (raw : String) (tools : Tools) (t0 now : ℚ) :
    (∀ x ∈ pipelineTrace raw tools t0 now, x.tool_successes ≤ x.tool_calls) ∧
    List.Chain' counterMono (pipelineTrace raw tools t0 now) := by
  have h := agentTrace_counters (AGENT_REGISTRY now) (registry_counterOk now)
      (AGENT_EXECUTION_ORDER ++ ["evaluation"])
      { raw_transcript := raw, start_ts := t0 } tools (by simp)
  unfold pipelineTrace
  constructor
  · intro x hx
    rcases List.mem_cons.mp hx with rfl | hx'
    · simp
    · exact h.2 x hx'
  · exact h.1

/-! ## C10: evaluation scores always present -/

/-- Did the pipeline return normally? -/
def pipeOk : Except PipeErr (CallState × MemoryState) → Bool
  | .ok _ => true
  | .error _ => false

/-- Call state carried by a pipeline outcome (the mutated state for an
agent exception, a fresh state for a configuration failure). -/
def pipeOutState : Except PipeErr (CallState × MemoryState) → CallState
  | .ok p => p.1
  | .error (.exc st) => st
  | .error (.keyError _) => {}

/-- A returning evaluation tail writes all three scores as numbers. -/
theorem evalFinish_ok_scores (now : ℚ) (s : CallState) (dc ds : ℕ)
    (sc : Option (List (String × Json))) (s' : CallState)
    (h : evalFinish now s dc ds sc = .ok s') :
    ∃ qf qc qs,
      jGet s'.evaluation "faithfulness_score" = some (.num qf) ∧
      jGet s'.evaluation "coverage_score" = some (.num qc) ∧
      jGet s'.evaluation "consistency_score" = some (.num qs) := by
  unfold evalFinish at h
  rcases sc with _ | ls
  · simp at h
  · simp only [] at h
    split at h
    · rename_i fv cv sv h1 h2 h3
      rw [Except.ok.injEq] at h
      subst h
      exact ⟨fv, cv, sv, by simp [jGet, compute_basic_eval],
        by simp [jGet, compute_basic_eval], by simp [jGet, compute_basic_eval]⟩
    · simp at h

/-- A returning evaluation agent writes all three scores as numbers. -/
theorem evaluation_agent_ok_scores (now : ℚ) (s : CallState) (tools : Tools)
    (s' : CallState) (h : evaluation_agent now s tools = .ok s') :
    ∃ qf qc qs,
      jGet s'.evaluation "faithfulness_score" = some (.num qf) ∧
      jGet s'.evaluation "coverage_score" = some (.num qc) ∧
      jGet s'.evaluation "consistency_score" = some (.num qs) := by
  unfold evaluation_agent at h
  split at h
  · exact evalFinish_ok_scores _ _ _ _ _ _ h
  · split at h <;> exact evalFinish_ok_scores _ _ _ _ _ _ h

/-- When all three scores are present as numbers, a successful memory
update takes the running-average branch for each of them. -/
theorem update_memory_avg_of_scores (m2 : MemoryState) (s : CallState)
    (qf qc qs : ℚ)
    (h1 : jGet s.evaluation "faithfulness_score" = some (.num qf))
    (h2 : jGet s.evaluation "coverage_score" = some (.num qc))
    (h3 : jGet s.evaluation "consistency_score" = some (.num qs)) :
    ∀ m3, update_memory_from_call m2 s = .ok m3 →
      m3.avg_faithfulness = updateRunningAvg m2.avg_faithfulness qf (m2.total_calls + 1) ∧
      m3.avg_coverage = updateRunningAvg m2.avg_coverage qc (m2.total_calls + 1) ∧
      m3.avg_consistency = updateRunningAvg m2.avg_consistency qs (m2.total_calls + 1) := by
  intro m3 h
  unfold update_memory_from_call at h
  simp only [h1, h2, h3, bind, Except.bind, jToFloat, pure, Except.pure] at h
  repeat
    first
    | exact Except.noConfusion h
    | (rw [Except.ok.injEq] at h; subst h; exact ⟨rfl, rfl, rfl⟩)
    | split at h

/-- The repository registry does register the evaluation agent. -/
theorem registry_find_evaluation (now : ℚ) :
    (AGENT_REGISTRY now).find? (fun kv => kv.1 = "evaluation") =
      some ("evaluation", evaluation_agent now) := rfl

/-- A normal pipeline return passes through a successful run of the
evaluation agent, whose result is the returned call state. -/
theorem run_pipeline_ok_from_eval (raw : String) (tools : Tools) (um : Bool)
    (mem : MemoryState) (t0 now : ℚ) (s : CallState) (mem' : MemoryState)
    (h : run_pipeline raw tools um mem t0 now = .ok (s, mem')) :
    ∃ s1, evaluation_agent now s1 tools = .ok s := by
  unfold run_pipeline run_pipeline_with at h
  rw [registry_find_evaluation now] at h
  simp only [bind, Except.bind, pure, Except.pure] at h
  split at h
  · exact Except.noConfusion h
  · rename_i s1 heq1
    split at h
    · exact Except.noConfusion h
    · rename_i s2 heq2
      refine ⟨s1, ?_⟩
      rw [heq2]
      congr 1
      rcases um with _ | _
      · simp only [Bool.false_eq_true, if_false, Except.ok.injEq, Prod.mk.injEq] at h
        exact h.1
      · simp only [if_true] at h
        split at h
        · exact Except.noConfusion h
        · simp only [Except.ok.injEq, Prod.mk.injEq] at h
          exact h.1

/-- C10: whenever the evaluation agent returns, it has written all three
keys `faithfulness_score`, `coverage_score` and `consistency_score` into
`call_state.evaluation` as floats (the 1.0 defaults cover an absent or
failing LLM and omitted keys); consequently every `CallState` produced by
`run_pipeline` (whose registry includes the evaluation agent) carries the
three numeric scores, and any successful `update_memory_from_call` on such
a state takes the running-average branch for all three fields — the
"field absent, average untouched" branch is never taken. -/
theorem evaluation_scores_written (raw : String) (tools : Tools) (um : Bool)
    (mem : MemoryState) (t0 now : ℚ) :
    (∀ (s s' : CallState), evaluation_agent now s tools = .ok s' →
      ∃ qf qc qs,
        jGet s'.evaluation "faithfulness_score" = some (.num qf) ∧
        jGet s'.evaluation "coverage_score" = some (.num qc) ∧
        jGet s'.evaluation "consistency_score" = some (.num qs)) ∧
    (pipeOk (run_pipeline raw tools um mem t0 now) = true →
      ∃ qf qc qs,
        jGet (pipeOutState (run_pipeline raw tools um mem t0 now)).evaluation
          "faithfulness_score" = some (.num qf) ∧
        jGet (pipeOutState (run_pipeline raw tools um mem t0 now)).evaluation
          "coverage_score" = some (.num qc) ∧
        jGet (pipeOutState (run_pipeline raw tools um mem t0 now)).evaluation
          "consistency_score" = some (.num qs) ∧
        ∀ m2 m3,
          update_memory_from_call m2 (pipeOutState (run_pipeline raw tools um mem t0 now)) =
            .ok m3 →
          m3.avg_faithfulness =
            updateRunningAvg m2.avg_faithfulness qf (m2.total_calls + 1) ∧
          m3.avg_coverage = updateRunningAvg m2.avg_coverage qc (m2.total_calls + 1) ∧
          m3.avg_consistency =
            updateRunningAvg m2.avg_consistency qs (m2.total_calls + 1)) := by
  refine ⟨fun s s' h => evaluation_agent_ok_scores now s tools s' h, ?_⟩
  intro hok
  cases hrun : run_pipeline raw tools um mem t0 now with
  | error e => rw [hrun] at hok; simp [pipeOk] at hok
  | ok p =>
    obtain ⟨s1, heval⟩ :=
      run_pipeline_ok_from_eval raw tools um mem t0 now p.1 p.2 (by rw [hrun])
    obtain ⟨qf, qc, qs, h1, h2, h3⟩ :=
      evaluation_agent_ok_scores now s1 tools p.1 heval
    simp only [pipeOutState]
    exact ⟨qf, qc, qs, h1, h2, h3,
      fun m2 m3 hm => update_memory_avg_of_scores m2 p.1 qf qc qs h1 h2 h3 m3 hm⟩

set_option maxHeartbeats 2000000 in
/-- Witness for C10 at a concrete run with no capabilities. -/
theorem evaluation_scores_written_witness :
    ∃ qf qc qs,
      jGet (pipeOutState (run_pipeline "hi" noTools false freshMemory 0 0)).evaluation
        "faithfulness_score" = some (.num qf) ∧
      jGet (pipeOutState (run_pipeline "hi" noTools false freshMemory 0 0)).evaluation
        "coverage_score" = some (.num qc) ∧
      jGet (pipeOutState (run_pipeline "hi" noTools false freshMemory 0 0)).evaluation
        "consistency_score" = some (.num qs) ∧
      ∀ m2 m3,
        update_memory_from_call m2
            (pipeOutState (run_pipeline "hi" noTools false freshMemory 0 0)) = .ok m3 →
        m3.avg_faithfulness =
          updateRunningAvg m2.avg_faithfulness qf (m2.total_calls + 1) ∧
        m3.avg_coverage = updateRunningAvg m2.avg_coverage qc (m2.total_calls + 1) ∧
        m3.avg_consistency =
          updateRunningAvg m2.avg_consistency qs (m2.total_calls + 1) :=
  (evaluation_scores_written "hi" noTools false freshMemory 0 0).2 rfl

/-- Helper: a run with a nonempty accumulator emits at least one word. -/
theorem wordsL_acc_ne (cs : List Char) : ∀ acc, acc ≠ [] → wordsL cs acc ≠ [] := by
  induction cs with
  | nil =>
    intro acc h
    simp [wordsL, List.isEmpty_iff, h]
  | cons c rest ih =>
    intro acc h
    unfold wordsL
    rcases hsp : pySpace c
    · simp only [Bool.false_eq_true, if_false]
      exact ih (c :: acc) (by simp)
    · simp only [if_true]
      simp [List.isEmpty_iff, h]

/-- Helper: every word emitted by the splitter is nonempty. -/
theorem wordsL_words_ne : ∀ (cs acc : List Char), ∀ w ∈ wordsL cs acc, w ≠ [] := by
  intro cs
  induction cs with
  | nil =>
    intro acc w hw
    unfold wordsL at hw
    rcases hacc : acc.isEmpty <;> simp [hacc] at hw
    subst hw
    simp [List.isEmpty_iff] at hacc
    simp [hacc]
  | cons c rest ih =>
    intro acc w hw
    unfold wordsL at hw
    rcases hsp : pySpace c <;> simp only [hsp, Bool.false_eq_true, if_false, if_true] at hw
    · exact ih (c :: acc) w hw
    · rcases hacc : acc.isEmpty <;> simp only [hacc, Bool.false_eq_true, if_false, if_true] at hw
      · rcases List.mem_cons.mp hw with rfl | hw'
        · simp [List.isEmpty_iff] at hacc
          simp [hacc]
        · exact ih [] w hw'
      · exact ih [] w hw

/-- Helper: stripping to nonempty implies the word list is nonempty. -/
theorem wordsL_of_strip_ne : ∀ (cs : List Char), pyStripL cs ≠ [] → wordsL cs [] ≠ [] := by
  intro cs
  induction cs with
  | nil => intro h; exact absurd rfl h
  | cons c rest ih =>
    intro h
    unfold wordsL
    rcases hsp : pySpace c
    · simp only [Bool.false_eq_true, if_false]
      exact wordsL_acc_ne rest [c] (by simp)
    · simp only [if_true, List.isEmpty_nil, if_true]
      apply ih
      intro hstrip
      apply h
      unfold pyStripL at hstrip ⊢
      simp [List.dropWhile_cons, hsp] at hstrip ⊢
      exact hstrip

/-- Helper: a string built from a nonempty character list is nonempty. -/
theorem mk_ne_empty (l : List Char) (h : l ≠ []) : String.mk l ≠ "" := by
  intro he
  have := congrArg String.data he
  simp at this
  exact h this

/-- Helper: joining a nonempty list of nonempty words is nonempty. -/
theorem joinWords_ne : ∀ (ws : List String), ws ≠ [] → (∀ w ∈ ws, w ≠ "") →
    joinWords ws ≠ "" := by
  intro ws
  match ws with
  | [] => intro h; exact absurd rfl h
  | [w] =>
    intro _ hall
    simpa [joinWords] using hall w (by simp)
  | w :: x :: rest =>
    intro _ hall
    show (w ++ " " ++ joinWords (x :: rest)) ≠ ""
    intro he
    have := congrArg String.data he
    rw [String.data_append, String.data_append] at this
    simp at this

/-- Helper: a string whose strip is nonempty shortens to a nonempty string. -/
theorem pyShorten_ne (text : String) (h : pyStrip text ≠ "") :
    pyShorten text 500 "..." ≠ "" := by
  have hstrip : pyStripL text.toList ≠ [] := by
    intro hl
    apply h
    show String.mk (pyStripL text.toList) = ""
    rw [hl]
  have hws : pyWords text ≠ [] := by
    simp only [pyWords]
    intro hmap
    exact wordsL_of_strip_ne text.toList hstrip (List.map_eq_nil_iff.mp hmap)
  have hall : ∀ w ∈ pyWords text, w ≠ "" := by
    intro w hw
    simp only [pyWords, List.mem_map] at hw
    obtain ⟨l, hl, rfl⟩ := hw
    exact mk_ne_empty l (wordsL_words_ne text.toList [] l hl)
  unfold pyShorten
  dsimp only
  split
  · exact joinWords_ne _ hws hall
  · split
    · simp
    · intro he
      have := congrArg String.data he
      rw [String.data_append] at this
      simp at this

/-- Helper: the rule-based summary is never empty. -/
theorem rule_based_summary_ne (s : CallState) : rule_based_summary s ≠ "" := by
  unfold rule_based_summary
  dsimp only
  split
  · simp [noTranscriptSummary]
  · exact pyShorten_ne _ (by assumption)

/-- Helper: label normalisation never returns the empty string. -/
theorem normalize_label_ne (l : String) : normalize_label l ≠ "" := by
  unfold normalize_label
  dsimp only
  split
  · simp
  · split
    · rename_i hc
      intro he
      rw [he] at hc
      simp [ALLOWED_LABELS] at hc
    · simp

/-- Helper: the rule-based sentiment label is never empty. -/
theorem rule_based_sentiment_ne (t : String) : rule_based_sentiment t ≠ "" := by
  unfold rule_based_sentiment
  dsimp only
  split_ifs <;> simp

/-- Helper: the rule-based timeline of a nonempty utterance list is
nonempty. -/
theorem fallbackTimeline_ne (us : List String) (h : us ≠ []) :
    fallbackTimeline us ≠ [] := by
  unfold fallbackTimeline
  simp [h]

/-- Helper: deduplicating a list of strings succeeds and yields strings. -/
theorem pyDedupJson_go_str : ∀ (xs : List Json) (seen : List Json),
    (∀ p ∈ xs, ∃ s, p = .str s) →
    ∃ ys, pyDedupJson.go xs seen = .ok ys ∧ ∀ p ∈ ys, ∃ s, p = .str s := by
  intro xs
  induction xs with
  | nil => intro seen _; exact ⟨[], rfl, by simp⟩
  | cons p rest ih =>
    intro seen hall
    obtain ⟨s, rfl⟩ := hall p (by simp)
    unfold pyDedupJson.go
    rw [if_neg (by simp [jHashable])]
    split
    · exact ih seen (fun q hq => hall q (by simp [hq]))
    · obtain ⟨ys, hok, hys⟩ := ih (Json.str s :: seen) (fun q hq => hall q (by simp [hq]))
      simp only [bind, Except.bind, hok, pure, Except.pure]
      refine ⟨Json.str s :: ys, rfl, ?_⟩
      intro q hq
      rcases List.mem_cons.mp hq with rfl | hq'
      · exact ⟨s, rfl⟩
      · exact hys q hq'

/-- A parsed entity value is tame when using it as a pain point cannot
raise: it is a string, absent, or falsy. -/
def tameOptVal : Option Json → Bool
  | none => true
  | some (.str _) => true
  | some v => ¬ jTruthy v

/-- Entities whose `issue` and `product` values are tame. -/
def entitiesTameKvs (kvs : List (String × Json)) : Bool :=
  tameOptVal (jGet kvs "issue") && tameOptVal (jGet kvs "product")

/-- Helper: all-string lists. -/
def allStr (l : List Json) : Prop := ∀ p ∈ l, ∃ x, p = .str x

theorem painPointsFromIssue_str (kvs : List (String × Json))
    (h : entitiesTameKvs kvs = true) : allStr (painPointsFromIssue kvs) := by
  simp only [entitiesTameKvs, Bool.and_eq_true] at h
  obtain ⟨hiss, _⟩ := h
  unfold painPointsFromIssue
  rcases hi : jGet kvs "issue" with _ | iv
  · simp [allStr]
  · rw [hi] at hiss
    rcases htr : jTruthy iv
    · simp [htr, allStr]
    · have hstr : ∃ x, iv = .str x := by
        rcases iv with _ | b | q | x | xs | o
        · simp [jTruthy] at htr
        · simp [tameOptVal, jTruthy] at hiss
          simp [jTruthy, hiss] at htr
        · simp [tameOptVal, jTruthy] at hiss
          simp [jTruthy, hiss] at htr
        · exact ⟨x, rfl⟩
        · simp [tameOptVal, jTruthy] at hiss
          simp [jTruthy, hiss] at htr
        · simp [tameOptVal, jTruthy] at hiss
          simp [jTruthy, hiss] at htr
      obtain ⟨x, rfl⟩ := hstr
      simp only [htr, if_true]
      rcases hp : jGet kvs "product" with _ | pv
      · intro p hp'
        simp at hp'
        exact ⟨x, hp'⟩
      · rcases htp : jTruthy pv <;> simp only [htp, Bool.false_eq_true, if_false, if_true]
        · intro p hp'
          simp at hp'
          exact ⟨x, hp'⟩
        · intro p hp'
          simp at hp'
          exact ⟨_, hp'⟩

theorem painPointsFromText_str (text : String) : allStr (painPointsFromText text) := by
  unfold painPointsFromText allStr
  (repeat' split) <;> simp

theorem painPointsFromA2A_str (msgs : List Message) : allStr (painPointsFromA2A msgs) := by
  unfold painPointsFromA2A allStr
  (repeat' split) <;> simp

/-- Helper: with tame entities the rule-based pain points succeed, are
nonempty and are all strings. -/
theorem rule_based_pain_points_ok (s : CallState)
    (htame : entitiesTameKvs s.entities = true) :
    ∃ pts, rule_based_pain_points s = .ok pts ∧ pts ≠ [] ∧ allStr pts := by
  unfold rule_based_pain_points
  have hall : allStr
      (painPointsFromIssue s.entities ++
        painPointsFromText (pyLower (orS s.cleaned_transcript s.raw_transcript)) ++
        painPointsFromA2A
          (get_messages_for_agent s "pain_points" (some "frustration_summary"))) := by
    intro p hp
    rcases List.mem_append.mp hp with hp' | hp'
    · rcases List.mem_append.mp hp' with hp'' | hp''
      · exact painPointsFromIssue_str s.entities htame p hp''
      · exact painPointsFromText_str _ p hp''
    · exact painPointsFromA2A_str _ p hp'
  obtain ⟨ys, hok, hys⟩ := pyDedupJson_go_str _ [] hall
  have hok' : pyDedupJson
      (painPointsFromIssue s.entities ++
        painPointsFromText (pyLower (orS s.cleaned_transcript s.raw_transcript)) ++
        painPointsFromA2A
          (get_messages_for_agent s "pain_points" (some "frustration_summary"))) = .ok ys := hok
  simp only [bind, Except.bind, hok', pure, Except.pure]
  rcases hys' : ys.isEmpty
  · exact ⟨ys, by simp [hys'], by simp [List.isEmpty_iff] at hys'; simp [hys'], hys⟩
  · refine ⟨[.str unclearPainPoint], by simp [hys'], by simp, ?_⟩
    intro p hp
    simp at hp
    exact ⟨_, hp⟩

/-- Helper: `a or b` on strings is nonempty when `b` is. -/
theorem orS_ne (a b : String) (hb : b ≠ "") : orS a b ≠ "" := by
  unfold orS
  split
  · exact hb
  · assumption

/-- Helper: with a nonempty raw transcript the frustration loop always sees
at least one utterance. -/
theorem effectiveUtterances_ne (s : CallState) (h : s.raw_transcript ≠ "") :
    effectiveUtterances s ≠ [] := by
  unfold effectiveUtterances
  dsimp only
  split
  · split
    · rename_i htext
      exact absurd htext (orS_ne _ _ h)
    · simp
  · rename_i hne
    intro hc
    rw [hc] at hne
    exact hne rfl

/-- Helper: a tame truthy value is a string, hence hashable. -/
theorem tame_of_tameOptVal {o : Option Json} (h : tameOptVal o = true) :
    ∀ pv, o = some pv → jTruthy pv = true → jHashable pv = true := by
  intro pv ho ht
  subst ho
  cases pv
  case str _ => rfl
  all_goals (simp only [tameOptVal, decide_eq_true_eq] at h; exact absurd ht h)

/-- Helper: the rule-based entities dict always has tame `issue` and
`product` values (each is a keyword string or `None`). -/
theorem rule_based_entities_tame (text : String) :
    entitiesTameKvs (rule_based_entities text) = true := by
  unfold rule_based_entities
  dsimp only
  cases PRODUCT_KEYWORDS.find? (fun kw => pyIn kw (pyLower text)) <;>
    cases ISSUE_KEYWORDS.find? (fun kw => pyIn kw (pyLower text)) <;> rfl

/-- Helper: a fold of fallible steps that all succeed succeeds. -/
theorem foldlM_ok {α β : Type} (f : β → α → Except Unit β) (ps : List α)
    (h : ∀ p ∈ ps, ∀ acc, ∃ r, f acc p = .ok r) :
    ∀ acc, ∃ r, ps.foldlM f acc = .ok r := by
  induction ps with
  | nil => intro acc; exact ⟨acc, rfl⟩
  | cons p rest ih =>
    intro acc
    obtain ⟨r1, hr1⟩ := h p (by simp) acc
    obtain ⟨r2, hr2⟩ := ih (fun q hq a => h q (by simp [hq]) a) r1
    exact ⟨r2, by rw [List.foldlM_cons, hr1]; simpa [bind, Except.bind] using hr2⟩

/-- Helper: bumping a counter at a hashable key succeeds. -/
theorem bumpJsonCount_ok (kvs : List (Json × ℕ)) (k : Json)
    (h : jHashable k = true) : ∃ r, bumpJsonCount kvs k = .ok r := by
  unfold bumpJsonCount
  rw [if_neg (by simp [h])]
  split <;> exact ⟨_, rfl⟩

/-- Helper: folding counter bumps over hashable keys succeeds. -/
theorem bumpJson_foldlM_ok (ps : List Json) (h : ∀ p ∈ ps, jHashable p = true) :
    ∀ acc, ∃ r, ps.foldlM (fun acc p => bumpJsonCount acc p) acc = .ok r :=
  foldlM_ok _ ps (fun p hp acc => bumpJsonCount_ok acc p (h p hp))

/-- Helper: the per-point playbook never raises on a string pain point and
always yields at least one action. -/
theorem actionsForPoint_ok (x : String) :
    ∃ as2, actionsForPoint (.str x) = .ok as2 ∧ as2 ≠ [] := by
  unfold actionsForPoint
  dsimp only
  simp only [bind, Except.bind, pure, Except.pure]
  split_ifs <;> exact ⟨_, rfl, by simp⟩

/-- Helper: folding the playbook over string pain points succeeds. -/
theorem actions_foldlM_ok (ps : List Json) (h : allStr ps) :
    ∀ acc, ∃ r, ps.foldlM
      (fun acc p => do
        let acts ← actionsForPoint p
        pure (acc ++ acts)) acc = .ok r := by
  refine foldlM_ok _ ps ?_
  intro p hp acc
  obtain ⟨x, rfl⟩ := h p hp
  obtain ⟨as2, has, _⟩ := actionsForPoint_ok x
  exact ⟨acc ++ as2, by simp only [bind, Except.bind, has, pure, Except.pure]⟩

/-- Helper: the rule-based actions succeed on all-string pain points and
are never empty. -/
theorem rule_based_actions_ok (s : CallState) (h : allStr s.pain_points) :
    ∃ acts, rule_based_actions s = .ok acts ∧ acts ≠ [] := by
  unfold rule_based_actions
  obtain ⟨r, hr⟩ := actions_foldlM_ok s.pain_points h []
  dsimp only
  rw [hr]
  simp only [bind, Except.bind, pure, Except.pure]
  refine ⟨_, rfl, ?_⟩
  split <;> split
  case isTrue.isTrue => simp
  case isTrue.isFalse =>
    rename_i hne
    simp only [List.isEmpty_iff] at hne
    exact hne
  case isFalse.isTrue => simp
  case isFalse.isFalse =>
    rename_i hne
    simp only [List.isEmpty_iff] at hne
    simpa using hne

/-- Helper: `update_memory_from_call` succeeds when every pain point is
hashable, the `product` entity value is falsy or hashable, and the three
evaluation scores are present and convert to floats. -/
theorem update_memory_ok (m : MemoryState) (s : CallState)
    (hpp : ∀ p ∈ s.pain_points, jHashable p = true)
    (pv : Json) (hprod : jGet s.entities "product" = some pv)
    (hpv : jTruthy pv = false ∨ jHashable pv = true)
    (vf vc vk : Json) (qf qc qk : ℚ)
    (hvf : jGet s.evaluation "faithfulness_score" = some vf)
    (hqf : jToFloat vf = .ok qf)
    (hvc : jGet s.evaluation "coverage_score" = some vc)
    (hqc : jToFloat vc = .ok qc)
    (hvk : jGet s.evaluation "consistency_score" = some vk)
    (hqk : jToFloat vk = .ok qk) :
    ∃ m2, update_memory_from_call m s = .ok m2 := by
  unfold update_memory_from_call
  obtain ⟨acc1, hacc1⟩ := bumpJson_foldlM_ok s.pain_points hpp m.pain_point_counts
  dsimp only
  rw [hacc1, hprod, hvf, hvc, hvk]
  dsimp only [bind, Except.bind, pure, Except.pure]
  rw [hqf, hqc, hqk]
  have hbump : jTruthy pv = true → ∃ r, bumpJsonCount m.product_issue_counts pv = .ok r := by
    intro ht
    rcases hpv with h | h
    · rw [ht] at h
      exact Bool.noConfusion h
    · exact bumpJsonCount_ok m.product_issue_counts pv h
  rcases ht : jTruthy pv with _ | _
  · simp only [ht, Bool.false_eq_true, if_false]
    exact ⟨_, rfl⟩
  · obtain ⟨r, hr⟩ := hbump ht
    simp only [ht, if_true]
    rw [hr]
    exact ⟨_, rfl⟩

/-- A capability container whose LLM is absent or raises on every call
(the spec's `always fails` stub). -/
def llmFallback (tools : Tools) : Prop :=
  tools.llm = none ∨ ∃ f, tools.llm = some f ∧ ∀ a, f a = .fail

/-- A capability container whose cleaner is absent or raises on every
call. -/
def cleanerFallback (tools : Tools) : Prop :=
  tools.cleaner = none ∨ ∃ cl, tools.cleaner = some cl ∧ ∀ t, cl t = .error ()

/-- Helper: with an absent or failing cleaner the cleaning agent returns
the fallback-cleaned transcript and its segmentation. -/
theorem cleaning_agent_ok (s : CallState) (tools : Tools)
    (hcl : cleanerFallback tools) :
    ∃ dc, cleaning_agent s tools =
      .ok { s with
            cleaned_transcript := fallback_clean s.raw_transcript
            utterances := split_utterances (fallback_clean s.raw_transcript)
            tool_calls := s.tool_calls + dc
            tool_successes := s.tool_successes + 0
            step_count := s.step_count + 1 } := by
  rcases hcl with h | ⟨cl, hcl2, hfail⟩
  · exact ⟨0, by unfold cleaning_agent; rw [h]; rfl⟩
  · refine ⟨1, ?_⟩
    unfold cleaning_agent
    rw [hcl2]
    dsimp only
    rw [hfail s.raw_transcript]
    rfl

/-- Helper: with an absent or failing LLM the entities agent stores the
rule-based entities and leaves every other output untouched. -/
theorem entities_agent_ok (s : CallState) (tools : Tools)
    (h : llmFallback tools) :
    ∃ s2, entities_agent s tools = .ok s2 ∧
      s2.raw_transcript = s.raw_transcript ∧
      s2.cleaned_transcript = s.cleaned_transcript ∧
      s2.utterances = s.utterances ∧
      s2.entities = rule_based_entities (orS s.cleaned_transcript s.raw_transcript) ∧
      s2.summary = s.summary ∧
      s2.sentiment = s.sentiment ∧
      s2.frustration_timeline = s.frustration_timeline ∧
      s2.pain_points = s.pain_points ∧
      s2.recommended_actions = s.recommended_actions ∧
      s2.step_count = s.step_count + 1 := by
  rcases h with h | ⟨f, hf, hfail⟩
  · unfold entities_agent
    rw [h]
    exact ⟨_, rfl, rfl, rfl, rfl, rfl, rfl, rfl, rfl, rfl, rfl, rfl⟩
  · unfold entities_agent
    rw [hf]
    dsimp only
    rw [hfail "entities"]
    exact ⟨_, rfl, rfl, rfl, rfl, rfl, rfl, rfl, rfl, rfl, rfl, rfl⟩

/-- Helper: with an absent or failing LLM and any transcript text the
summarization agent stores the rule-based summary. -/
theorem summarization_agent_ok (s : CallState) (tools : Tools)
    (h : llmFallback tools)
    (hne : ¬(s.cleaned_transcript = "" ∧ s.raw_transcript = "")) :
    ∃ s2, summarization_agent s tools = .ok s2 ∧
      s2.raw_transcript = s.raw_transcript ∧
      s2.cleaned_transcript = s.cleaned_transcript ∧
      s2.utterances = s.utterances ∧
      s2.entities = s.entities ∧
      s2.summary = rule_based_summary s ∧
      s2.sentiment = s.sentiment ∧
      s2.frustration_timeline = s.frustration_timeline ∧
      s2.pain_points = s.pain_points ∧
      s2.recommended_actions = s.recommended_actions ∧
      s2.step_count = s.step_count + 1 := by
  unfold summarization_agent
  rw [if_neg hne]
  rcases h with h | ⟨f, hf, hfail⟩
  · rw [h]
    exact ⟨_, rfl, rfl, rfl, rfl, rfl, rfl, rfl, rfl, rfl, rfl, rfl⟩
  · rw [hf]
    dsimp only
    rw [hfail "summarization"]
    exact ⟨_, rfl, rfl, rfl, rfl, rfl, rfl, rfl, rfl, rfl, rfl, rfl⟩

/-- Helper: with an absent or failing LLM the sentiment agent always
returns, stores a nonempty label, and leaves other outputs untouched. -/
theorem sentiment_agent_ok (s : CallState) (tools : Tools)
    (h : llmFallback tools) :
    ∃ s2, sentiment_agent s tools = .ok s2 ∧
      s2.raw_transcript = s.raw_transcript ∧
      s2.cleaned_transcript = s.cleaned_transcript ∧
      s2.utterances = s.utterances ∧
      s2.entities = s.entities ∧
      s2.summary = s.summary ∧
      s2.sentiment ≠ "" ∧
      s2.frustration_timeline = s.frustration_timeline ∧
      s2.pain_points = s.pain_points ∧
      s2.recommended_actions = s.recommended_actions ∧
      s2.step_count = s.step_count + 1 := by
  unfold sentiment_agent
  split
  · exact ⟨_, rfl, rfl, rfl, rfl, rfl, rfl,
      (by decide : ("unknown" : String) ≠ ""), rfl, rfl, rfl, rfl⟩
  · rcases h with h | ⟨f, hf, hfail⟩
    · rw [h]
      exact ⟨_, rfl, rfl, rfl, rfl, rfl, rfl,
        rule_based_sentiment_ne _, rfl, rfl, rfl, rfl⟩
    · rw [hf]
      dsimp only
      rw [hfail "sentiment"]
      exact ⟨_, rfl, rfl, rfl, rfl, rfl, rfl,
        rule_based_sentiment_ne _, rfl, rfl, rfl, rfl⟩

/-- Helper: with an absent or failing LLM and a nonempty raw transcript the
frustration loop stores a nonempty rule-based timeline. -/
theorem frustration_agent_ok (s : CallState) (tools : Tools)
    (h : llmFallback tools) (hraw : s.raw_transcript ≠ "") :
    ∃ s2, frustration_loop_agent s tools = .ok s2 ∧
      s2.raw_transcript = s.raw_transcript ∧
      s2.cleaned_transcript = s.cleaned_transcript ∧
      s2.utterances = s.utterances ∧
      s2.entities = s.entities ∧
      s2.summary = s.summary ∧
      s2.sentiment = s.sentiment ∧
      s2.frustration_timeline ≠ [] ∧
      s2.pain_points = s.pain_points ∧
      s2.recommended_actions = s.recommended_actions ∧
      s2.step_count = s.step_count + 1 := by
  have hutt : effectiveUtterances s ≠ [] := effectiveUtterances_ne s hraw
  unfold frustration_loop_agent
  dsimp only
  rw [if_neg (by simp [List.isEmpty_iff, hutt])]
  have htl : ∀ dc dsucc : ℕ,
      ∃ s2, frustrationFinish s (effectiveUtterances s) dc dsucc [] = .ok s2 ∧
        s2.raw_transcript = s.raw_transcript ∧
        s2.cleaned_transcript = s.cleaned_transcript ∧
        s2.utterances = s.utterances ∧
        s2.entities = s.entities ∧
        s2.summary = s.summary ∧
        s2.sentiment = s.sentiment ∧
        s2.frustration_timeline ≠ [] ∧
        s2.pain_points = s.pain_points ∧
        s2.recommended_actions = s.recommended_actions ∧
        s2.step_count = s.step_count + 1 := by
    intro dc dsucc
    refine ⟨_, rfl, rfl, rfl, rfl, rfl, rfl, rfl, ?_, rfl, rfl, rfl⟩
    show (if ([] : List TimelineEntry).isEmpty then
        fallbackTimeline (effectiveUtterances s) else []) ≠ []
    simpa using fallbackTimeline_ne _ hutt
  rcases h with h | ⟨f, hf, hfail⟩
  · rw [h]
    exact htl 0 0
  · rw [hf]
    dsimp only
    rw [hfail "frustration_loop"]
    exact htl 1 0

/-- Helper: with an absent or failing LLM and tame entities the pain-points
agent stores a nonempty all-string rule-based list. -/
theorem pain_points_agent_ok (s : CallState) (tools : Tools)
    (h : llmFallback tools) (htame : entitiesTameKvs s.entities = true) :
    ∃ s2, pain_points_agent s tools = .ok s2 ∧
      s2.raw_transcript = s.raw_transcript ∧
      s2.cleaned_transcript = s.cleaned_transcript ∧
      s2.utterances = s.utterances ∧
      s2.entities = s.entities ∧
      s2.summary = s.summary ∧
      s2.sentiment = s.sentiment ∧
      s2.frustration_timeline = s.frustration_timeline ∧
      (s2.pain_points ≠ [] ∧ allStr s2.pain_points) ∧
      s2.recommended_actions = s.recommended_actions ∧
      s2.step_count = s.step_count + 1 := by
  have key : ∀ dc dsucc : ℕ,
      ∃ s2, painPointsFinish s dc dsucc none = .ok s2 ∧
        s2.raw_transcript = s.raw_transcript ∧
        s2.cleaned_transcript = s.cleaned_transcript ∧
        s2.utterances = s.utterances ∧
        s2.entities = s.entities ∧
        s2.summary = s.summary ∧
        s2.sentiment = s.sentiment ∧
        s2.frustration_timeline = s.frustration_timeline ∧
        (s2.pain_points ≠ [] ∧ allStr s2.pain_points) ∧
        s2.recommended_actions = s.recommended_actions ∧
        s2.step_count = s.step_count + 1 := by
    intro dc dsucc
    unfold painPointsFinish
    dsimp only
    obtain ⟨pts, hok, hne, hstr⟩ := rule_based_pain_points_ok
      { s with tool_calls := s.tool_calls + dc, tool_successes := s.tool_successes + dsucc }
      htame
    rw [hok]
    exact ⟨_, rfl, rfl, rfl, rfl, rfl, rfl, rfl, rfl, ⟨hne, hstr⟩, rfl, rfl⟩
  unfold pain_points_agent
  rcases h with h | ⟨f, hf, hfail⟩
  · rw [h]
    exact key 0 0
  · rw [hf]
    dsimp only
    rw [hfail "pain_points"]
    exact key 1 0

/-- Helper: with an absent or failing LLM and all-string pain points the
actions agent stores a nonempty rule-based action list. -/
theorem actions_agent_ok (s : CallState) (tools : Tools)
    (h : llmFallback tools) (hstr : allStr s.pain_points) :
    ∃ s2, actions_agent s tools = .ok s2 ∧
      s2.raw_transcript = s.raw_transcript ∧
      s2.cleaned_transcript = s.cleaned_transcript ∧
      s2.utterances = s.utterances ∧
      s2.entities = s.entities ∧
      s2.summary = s.summary ∧
      s2.sentiment = s.sentiment ∧
      s2.frustration_timeline = s.frustration_timeline ∧
      s2.pain_points = s.pain_points ∧
      s2.recommended_actions ≠ [] ∧
      s2.step_count = s.step_count + 1 := by
  have key : ∀ dc dsucc : ℕ,
      ∃ s2, actionsFinish s dc dsucc none = .ok s2 ∧
        s2.raw_transcript = s.raw_transcript ∧
        s2.cleaned_transcript = s.cleaned_transcript ∧
        s2.utterances = s.utterances ∧
        s2.entities = s.entities ∧
        s2.summary = s.summary ∧
        s2.sentiment = s.sentiment ∧
        s2.frustration_timeline = s.frustration_timeline ∧
        s2.pain_points = s.pain_points ∧
        s2.recommended_actions ≠ [] ∧
        s2.step_count = s.step_count + 1 := by
    intro dc dsucc
    unfold actionsFinish
    dsimp only
    obtain ⟨acts, hok, hne⟩ := rule_based_actions_ok
      { s with tool_calls := s.tool_calls + dc, tool_successes := s.tool_successes + dsucc }
      hstr
    rw [hok]
    exact ⟨_, rfl, rfl, rfl, rfl, rfl, rfl, rfl, rfl, rfl, hne, rfl⟩
  unfold actions_agent
  rcases h with h | ⟨f, hf, hfail⟩
  · rw [h]
    exact key 0 0
  · rw [hf]
    dsimp only
    rw [hfail "actions"]
    exact key 1 0

/-- Helper: with an absent or failing LLM the evaluation agent returns,
writes the three default scores as numbers, and preserves the other
outputs. -/
theorem evaluation_agent_fallback_ok (now : ℚ) (s : CallState) (tools : Tools)
    (h : llmFallback tools) :
    ∃ s2, evaluation_agent now s tools = .ok s2 ∧
      s2.raw_transcript = s.raw_transcript ∧
      s2.cleaned_transcript = s.cleaned_transcript ∧
      s2.utterances = s.utterances ∧
      s2.entities = s.entities ∧
      s2.summary = s.summary ∧
      s2.sentiment = s.sentiment ∧
      s2.frustration_timeline = s.frustration_timeline ∧
      s2.pain_points = s.pain_points ∧
      s2.recommended_actions = s.recommended_actions ∧
      (jGet s2.evaluation "faithfulness_score" = some (.num 1) ∧
        jGet s2.evaluation "coverage_score" = some (.num 1) ∧
        jGet s2.evaluation "consistency_score" = some (.num 1)) ∧
      s2.step_count = s.step_count + 1 := by
  unfold evaluation_agent
  rcases h with h | ⟨f, hf, hfail⟩
  · rw [h]
    exact ⟨_, rfl, rfl, rfl, rfl, rfl, rfl, rfl, rfl, rfl, rfl, ⟨rfl, rfl, rfl⟩, rfl⟩
  · rw [hf]
    dsimp only
    rw [hfail "evaluation"]
    exact ⟨_, rfl, rfl, rfl, rfl, rfl, rfl, rfl, rfl, rfl, rfl, ⟨rfl, rfl, rfl⟩, rfl⟩

/-- Helper: opaque form of the cleaning step for chaining. -/
theorem cleaning_agent_ok2 (s : CallState) (tools : Tools)
    (hcl : cleanerFallback tools) :
    ∃ s2, cleaning_agent s tools = .ok s2 ∧
      s2.raw_transcript = s.raw_transcript ∧
      s2.cleaned_transcript = fallback_clean s.raw_transcript ∧
      s2.utterances = split_utterances (fallback_clean s.raw_transcript) ∧
      s2.entities = s.entities ∧
      s2.summary = s.summary ∧
      s2.sentiment = s.sentiment ∧
      s2.frustration_timeline = s.frustration_timeline ∧
      s2.pain_points = s.pain_points ∧
      s2.recommended_actions = s.recommended_actions ∧
      s2.step_count = s.step_count + 1 := by
  obtain ⟨dc, h⟩ := cleaning_agent_ok s tools hcl
  rw [h]
  exact ⟨_, rfl, rfl, rfl, rfl, rfl, rfl, rfl, rfl, rfl, rfl, rfl⟩

/-- Helper: one resolved step of `runAgents`. -/
theorem runAgents_cons {registry : List (String × AgentFn)} {n : String}
    {rest : List String} {s s2 : CallState} {tools : Tools} {f : AgentFn}
    (hget : get_agent registry n = .ok f) (happ : f s tools = .ok s2) :
    runAgents registry (n :: rest) s tools = runAgents registry rest s2 tools := by
  conv_lhs => rw [runAgents]
  simp only [hget, happ]

/-- Helper: the `product` value of the rule-based entities is `None` or a
keyword string, hence falsy or hashable. -/
theorem rule_based_entities_product (text : String) :
    ∃ pv, jGet (rule_based_entities text) "product" = some pv ∧
      (jTruthy pv = false ∨ jHashable pv = true) := by
  unfold rule_based_entities
  dsimp only
  cases PRODUCT_KEYWORDS.find? (fun kw => pyIn kw (pyLower text)) with
  | none => exact ⟨.null, rfl, Or.inl rfl⟩
  | some kw => exact ⟨.str kw, rfl, Or.inr rfl⟩

/-- C3 (amended): for any nonempty `raw_transcript` and any capability
container whose LLM and cleaner are absent or raise on every call (the
spec's always-failing stub), `run_pipeline` returns normally and every
output field is populated by the rule-based fallbacks — the cleaned
transcript and utterances are the fallback cleaning of the raw text, the
entities are the rule-based extraction, summary and sentiment are nonempty
strings, the frustration timeline, pain points and recommended actions are
nonempty lists, the evaluation carries the three numeric scores — and
`step_count` is `len(AGENT_EXECUTION_ORDER) + 1`: each of the seven
ordered agents and the separately run evaluation agent adds exactly 1.
(The original claim's `any capability stub` and `step_count == number of
agents executed` are corrected: a hostile stub can raise out of the
pipeline, and the evaluation agent also counts a step.) -/
theorem pipeline_fallback_outputs (raw : String) (tools : Tools) (um : Bool)
    (mem : MemoryState) (t0 now : ℚ)
    (hraw : raw ≠ "") (hllm : llmFallback tools) (hcl : cleanerFallback tools) :
    ∃ s m2, run_pipeline raw tools um mem t0 now = .ok (s, m2) ∧
      s.cleaned_transcript = fallback_clean raw ∧
      s.utterances = split_utterances (fallback_clean raw) ∧
      s.entities = rule_based_entities (orS (fallback_clean raw) raw) ∧
      s.summary ≠ "" ∧
      s.sentiment ≠ "" ∧
      s.frustration_timeline ≠ [] ∧
      s.pain_points ≠ [] ∧
      s.recommended_actions ≠ [] ∧
      (∃ qf qc qs,
        jGet s.evaluation "faithfulness_score" = some (.num qf) ∧
        jGet s.evaluation "coverage_score" = some (.num qc) ∧
        jGet s.evaluation "consistency_score" = some (.num qs)) ∧
      s.step_count = AGENT_EXECUTION_ORDER.length + 1 := by
  obtain ⟨s1, h1, r1raw, r1cl, r1ut, r1ent, r1sum, r1sent, r1tl, r1pp, r1act, r1st⟩ :=
    cleaning_agent_ok2 { raw_transcript := raw, start_ts := t0 } tools hcl
  have hraw1 : s1.raw_transcript = raw := r1raw
  have hcl1 : s1.cleaned_transcript = fallback_clean raw := r1cl
  have hut1 : s1.utterances = split_utterances (fallback_clean raw) := r1ut
  obtain ⟨s2, h2, r2raw, r2cl, r2ut, r2ent, r2sum, r2sent, r2tl, r2pp, r2act, r2st⟩ :=
    entities_agent_ok s1 tools hllm
  have hraw2 : s2.raw_transcript = raw := r2raw.trans hraw1
  have hcl2 : s2.cleaned_transcript = fallback_clean raw := r2cl.trans hcl1
  have hut2 : s2.utterances = split_utterances (fallback_clean raw) := r2ut.trans hut1
  have hent2 : s2.entities = rule_based_entities (orS (fallback_clean raw) raw) := by
    rw [r2ent, hcl1, hraw1]
  obtain ⟨s3, h3, r3raw, r3cl, r3ut, r3ent, r3sum, r3sent, r3tl, r3pp, r3act, r3st⟩ :=
    summarization_agent_ok s2 tools hllm
      (fun hc => hraw (hraw2 ▸ hc.2))
  have hraw3 : s3.raw_transcript = raw := r3raw.trans hraw2
  have hcl3 : s3.cleaned_transcript = fallback_clean raw := r3cl.trans hcl2
  have hut3 : s3.utterances = split_utterances (fallback_clean raw) := r3ut.trans hut2
  have hent3 : s3.entities = rule_based_entities (orS (fallback_clean raw) raw) :=
    r3ent.trans hent2
  have hsum3 : s3.summary ≠ "" := by
    rw [r3sum]
    exact rule_based_summary_ne s2
  obtain ⟨s4, h4, r4raw, r4cl, r4ut, r4ent, r4sum, r4sent, r4tl, r4pp, r4act, r4st⟩ :=
    sentiment_agent_ok s3 tools hllm
  have hraw4 : s4.raw_transcript = raw := r4raw.trans hraw3
  have hcl4 : s4.cleaned_transcript = fallback_clean raw := r4cl.trans hcl3
  have hut4 : s4.utterances = split_utterances (fallback_clean raw) := r4ut.trans hut3
  have hent4 : s4.entities = rule_based_entities (orS (fallback_clean raw) raw) :=
    r4ent.trans hent3
  have hsum4 : s4.summary ≠ "" := r4sum.symm ▸ hsum3
  obtain ⟨s5, h5, r5raw, r5cl, r5ut, r5ent, r5sum, r5sent, r5tl, r5pp, r5act, r5st⟩ :=
    frustration_agent_ok s4 tools hllm (hraw4.symm ▸ hraw)
  have hraw5 : s5.raw_transcript = raw := r5raw.trans hraw4
  have hcl5 : s5.cleaned_transcript = fallback_clean raw := r5cl.trans hcl4
  have hut5 : s5.utterances = split_utterances (fallback_clean raw) := r5ut.trans hut4
  have hent5 : s5.entities = rule_based_entities (orS (fallback_clean raw) raw) :=
    r5ent.trans hent4
  have hsum5 : s5.summary ≠ "" := by rw [r5sum]; exact hsum4
  have hsent5 : s5.sentiment ≠ "" := by rw [r5sent]; exact r4sent
  obtain ⟨s6, h6, r6raw, r6cl, r6ut, r6ent, r6sum, r6sent, r6tl, r6pp, r6act, r6st⟩ :=
    pain_points_agent_ok s5 tools hllm
      (by rw [hent5]; exact rule_based_entities_tame _)
  have hraw6 : s6.raw_transcript = raw := r6raw.trans hraw5
  have hcl6 : s6.cleaned_transcript = fallback_clean raw := r6cl.trans hcl5
  have hut6 : s6.utterances = split_utterances (fallback_clean raw) := r6ut.trans hut5
  have hent6 : s6.entities = rule_based_entities (orS (fallback_clean raw) raw) :=
    r6ent.trans hent5
  have hsum6 : s6.summary ≠ "" := by rw [r6sum]; exact hsum5
  have hsent6 : s6.sentiment ≠ "" := by rw [r6sent]; exact hsent5
  have htl6 : s6.frustration_timeline ≠ [] := by rw [r6tl]; exact r5tl
  obtain ⟨s7, h7, r7raw, r7cl, r7ut, r7ent, r7sum, r7sent, r7tl, r7pp, r7act, r7st⟩ :=
    actions_agent_ok s6 tools hllm r6pp.2
  have hraw7 : s7.raw_transcript = raw := r7raw.trans hraw6
  have hcl7 : s7.cleaned_transcript = fallback_clean raw := r7cl.trans hcl6
  have hut7 : s7.utterances = split_utterances (fallback_clean raw) := r7ut.trans hut6
  have hent7 : s7.entities = rule_based_entities (orS (fallback_clean raw) raw) :=
    r7ent.trans hent6
  have hsum7 : s7.summary ≠ "" := by rw [r7sum]; exact hsum6
  have hsent7 : s7.sentiment ≠ "" := by rw [r7sent]; exact hsent6
  have htl7 : s7.frustration_timeline ≠ [] := by rw [r7tl]; exact htl6
  have hpp7 : s7.pain_points ≠ [] := by rw [r7pp]; exact r6pp.1
  have hppstr7 : allStr s7.pain_points := by rw [r7pp]; exact r6pp.2
  obtain ⟨s8, h8, r8raw, r8cl, r8ut, r8ent, r8sum, r8sent, r8tl, r8pp, r8act, r8sc, r8st⟩ :=
    evaluation_agent_fallback_ok now s7 tools hllm
  have hcl8 : s8.cleaned_transcript = fallback_clean raw := r8cl.trans hcl7
  have hut8 : s8.utterances = split_utterances (fallback_clean raw) := r8ut.trans hut7
  have hent8 : s8.entities = rule_based_entities (orS (fallback_clean raw) raw) :=
    r8ent.trans hent7
  have hsum8 : s8.summary ≠ "" := by rw [r8sum]; exact hsum7
  have hsent8 : s8.sentiment ≠ "" := by rw [r8sent]; exact hsent7
  have htl8 : s8.frustration_timeline ≠ [] := by rw [r8tl]; exact htl7
  have hpp8 : s8.pain_points ≠ [] := by rw [r8pp]; exact hpp7
  have hppstr8 : allStr s8.pain_points := by rw [r8pp]; exact hppstr7
  have hact8 : s8.recommended_actions ≠ [] := by rw [r8act]; exact r7act
  have hst8 : s8.step_count = AGENT_EXECUTION_ORDER.length + 1 := by
    have h0 : ({ raw_transcript := raw, start_ts := t0 } : CallState).step_count = 0 := rfl
    have hlen : AGENT_EXECUTION_ORDER.length + 1 = 8 := rfl
    omega
  have hchain : runAgents (AGENT_REGISTRY now) AGENT_EXECUTION_ORDER
      { raw_transcript := raw, start_ts := t0 } tools = .ok s7 := by
    have e1 : runAgents (AGENT_REGISTRY now)
        AGENT_EXECUTION_ORDER { raw_transcript := raw, start_ts := t0 } tools =
        runAgents (AGENT_REGISTRY now)
          ["entities", "summarization", "sentiment", "frustration_loop", "pain_points", "actions"] s1 tools :=
      runAgents_cons rfl h1
    have e2 : runAgents (AGENT_REGISTRY now)
        ["entities", "summarization", "sentiment", "frustration_loop", "pain_points", "actions"] s1 tools =
        runAgents (AGENT_REGISTRY now)
          ["summarization", "sentiment", "frustration_loop", "pain_points", "actions"] s2 tools :=
      runAgents_cons rfl h2
    have e3 : runAgents (AGENT_REGISTRY now)
        ["summarization", "sentiment", "frustration_loop", "pain_points", "actions"] s2 tools =
        runAgents (AGENT_REGISTRY now)
          ["sentiment", "frustration_loop", "pain_points", "actions"] s3 tools :=
      runAgents_cons rfl h3
    have e4 : runAgents (AGENT_REGISTRY now)
        ["sentiment", "frustration_loop", "pain_points", "actions"] s3 tools =
        runAgents (AGENT_REGISTRY now)
          ["frustration_loop", "pain_points", "actions"] s4 tools :=
      runAgents_cons rfl h4
    have e5 : runAgents (AGENT_REGISTRY now)
        ["frustration_loop", "pain_points", "actions"] s4 tools =
        runAgents (AGENT_REGISTRY now)
          ["pain_points", "actions"] s5 tools :=
      runAgents_cons rfl h5
    have e6 : runAgents (AGENT_REGISTRY now)
        ["pain_points", "actions"] s5 tools =
        runAgents (AGENT_REGISTRY now)
          ["actions"] s6 tools :=
      runAgents_cons rfl h6
    have e7 : runAgents (AGENT_REGISTRY now)
        ["actions"] s6 tools =
        runAgents (AGENT_REGISTRY now)
          ([] : List String) s7 tools :=
      runAgents_cons rfl h7
    rw [e1, e2, e3, e4, e5, e6, e7]
    rfl
  unfold run_pipeline run_pipeline_with
  rw [registry_find_evaluation now]
  simp only [bind, Except.bind, pure, Except.pure]
  rw [hchain]
  dsimp only
  rw [h8]
  dsimp only
  rcases um with _ | _
  · simp only [Bool.false_eq_true, if_false]
    exact ⟨s8, mem, rfl, hcl8, hut8, hent8, hsum8, hsent8, htl8, hpp8, hact8,
      ⟨1, 1, 1, r8sc.1, r8sc.2.1, r8sc.2.2⟩, hst8⟩
  · simp only [if_true]
    obtain ⟨pv, hpv1, hpv2⟩ := rule_based_entities_product (orS (fallback_clean raw) raw)
    obtain ⟨m2, hm2⟩ := update_memory_ok mem s8
      (fun p hp => by obtain ⟨x, hx⟩ := hppstr8 p hp; rw [hx]; rfl)
      pv (by rw [hent8]; exact hpv1) hpv2
      (.num 1) (.num 1) (.num 1) 1 1 1
      r8sc.1 rfl r8sc.2.1 rfl r8sc.2.2 rfl
    rw [hm2]
    exact ⟨s8, m2, rfl, hcl8, hut8, hent8, hsum8, hsent8, htl8, hpp8, hact8,
      ⟨1, 1, 1, r8sc.1, r8sc.2.1, r8sc.2.2⟩, hst8⟩

/-- A hostile LLM stub: its evaluation reply parses (via `json.loads`) to a
string that contains all four expected key names as substrings, so it
survives the agent's `in` checks and reaches the merge, where `.get` on a
string raises outside the `try`. -/
def hostileEvalLLM : String → LLMReply := fun a =>
  if a = "evaluation" then
    .reply "x" (some (.str "faithfulness_score coverage_score consistency_score notes"))
  else .fail

/-- Capabilities built around the hostile evaluation stub. -/
def hostileEvalTools : Tools := { llm := some hostileEvalLLM }

set_option maxHeartbeats 4000000 in
/-- C3 (counterexample): with a nonempty transcript and a capability stub
whose evaluation reply is a string containing the four expected key names,
the pipeline does not return a populated `CallState` at all — the
evaluation agent raises and `run_pipeline` propagates the exception. -/
theorem pipeline_hostile_stub_cex :
    pipeOk (run_pipeline "hello" hostileEvalTools false freshMemory 0 0) = false := by
  rfl

set_option maxHeartbeats 2000000 in
/-- Witness for C3 at a concrete run with no capabilities and the memory
update enabled. -/
theorem pipeline_fallback_outputs_witness :
    ∃ s m2, run_pipeline "hi" noTools true freshMemory 0 0 = .ok (s, m2) ∧
      s.cleaned_transcript = fallback_clean "hi" ∧
      s.utterances = split_utterances (fallback_clean "hi") ∧
      s.entities = rule_based_entities (orS (fallback_clean "hi") "hi") ∧
      s.summary ≠ "" ∧
      s.sentiment ≠ "" ∧
      s.frustration_timeline ≠ [] ∧
      s.pain_points ≠ [] ∧
      s.recommended_actions ≠ [] ∧
      (∃ qf qc qs,
        jGet s.evaluation "faithfulness_score" = some (.num qf) ∧
        jGet s.evaluation "coverage_score" = some (.num qc) ∧
        jGet s.evaluation "consistency_score" = some (.num qs)) ∧
      s.step_count = AGENT_EXECUTION_ORDER.length + 1 :=
  pipeline_fallback_outputs "hi" noTools true freshMemory 0 0
    (by decide) (Or.inl rfl) (Or.inl rfl)

/-- Helper: enabling the memory update changes only the returned memory,
provided the update succeeds on the final call state. -/
theorem run_pipeline_with_memory_ok (registry : List (String × AgentFn)) (raw : String)
    (tools : Tools) (mem m2 : MemoryState) (t0 : ℚ) (s : CallState)
    (h : run_pipeline_with registry raw tools false mem t0 = .ok (s, mem))
    (hup : update_memory_from_call mem s = .ok m2) :
    run_pipeline_with registry raw tools true mem t0 = .ok (s, m2) := by
  unfold run_pipeline_with at h ⊢
  simp only [bind, Except.bind, pure, Except.pure, Bool.false_eq_true, if_false,
    if_true] at h ⊢
  split at h
  · exact Except.noConfusion h
  · rename_i s1 heq1
    cases hF : registry.find? (fun kv => kv.1 = "evaluation") with
    | none =>
      rw [hF] at h
      dsimp only at h
      rw [Except.ok.injEq, Prod.mk.injEq] at h
      obtain ⟨hs, _⟩ := h
      subst hs
      dsimp only
      rw [hup]
    | some kv =>
      rw [hF] at h
      dsimp only at h
      dsimp only
      cases hE : kv.2 s1 tools with
      | error st =>
        rw [hE] at h
        exact Except.noConfusion h
      | ok s2 =>
        rw [hE] at h
        dsimp only at h
        rw [Except.ok.injEq, Prod.mk.injEq] at h
        obtain ⟨hs, _⟩ := h
        subst hs
        dsimp only
        rw [hup]

set_option maxHeartbeats 4000000 in
/-- Helper: concrete evaluation of the empty-transcript run (memory update
disabled) for each absent-or-failing capability combination. -/
theorem pipeline_empty_false_run (tools : Tools) (mem : MemoryState) (t0 now : ℚ)
    (hllm : llmFallback tools) (hcl : cleanerFallback tools) :
    ∃ s, run_pipeline "" tools false mem t0 now = .ok (s, mem) ∧
      s.sentiment = "unknown" ∧
      s.summary = noTranscriptSummary ∧
      s.pain_points = [.str unclearPainPoint] ∧
      s.entities = rule_based_entities "" ∧
      (jGet s.evaluation "faithfulness_score" = some (.num 1) ∧
        jGet s.evaluation "coverage_score" = some (.num 1) ∧
        jGet s.evaluation "consistency_score" = some (.num 1)) ∧
      s.step_count = AGENT_EXECUTION_ORDER.length + 1 := by
  rcases tools with ⟨llm0, cl0⟩
  have hllm2 : llm0 = none ∨ llm0 = some (fun _ => LLMReply.fail) := by
    rcases hllm with h | ⟨f, hf, hfa⟩
    · exact Or.inl h
    · exact Or.inr (by rw [show llm0 = some f from hf]; exact congrArg some (funext hfa))
  have hcl2 : cl0 = none ∨ cl0 = some (fun _ => (Except.error () : Except Unit String)) := by
    rcases hcl with h | ⟨cl, hc, hcfa⟩
    · exact Or.inl h
    · exact Or.inr (by rw [show cl0 = some cl from hc]; exact congrArg some (funext hcfa))
  rcases hllm2 with rfl | rfl <;> rcases hcl2 with rfl | rfl <;>
    exact ⟨_, rfl, rfl, rfl, rfl, rfl, ⟨rfl, rfl, rfl⟩, rfl⟩

/-- C4 (amended): with an empty raw transcript and absent or failing
capabilities, `run_pipeline` returns a call state with
`sentiment = "unknown"`, the fixed no-transcript summary, the single
`"unclear primary pain point"` sentinel pain point, and
`step_count = len(AGENT_EXECUTION_ORDER) + 1` — one more than the
original claim's `len(execution_order)`, because the separately run
evaluation agent also counts a step. -/
theorem pipeline_empty_transcript_outputs (tools : Tools) (um : Bool)
    (mem : MemoryState) (t0 now : ℚ)
    (hllm : llmFallback tools) (hcl : cleanerFallback tools) :
    ∃ s m2, run_pipeline "" tools um mem t0 now = .ok (s, m2) ∧
      s.sentiment = "unknown" ∧
      s.summary = noTranscriptSummary ∧
      s.pain_points = [.str unclearPainPoint] ∧
      s.step_count = AGENT_EXECUTION_ORDER.length + 1 := by
  obtain ⟨s, hrun, hsent, hsum, hpp, hent, hsc, hst⟩ :=
    pipeline_empty_false_run tools mem t0 now hllm hcl
  rcases um with _ | _
  · exact ⟨s, mem, hrun, hsent, hsum, hpp, hst⟩
  · obtain ⟨pv, hpv1, hpv2⟩ := rule_based_entities_product ""
    obtain ⟨m2, hm2⟩ := update_memory_ok mem s
      (fun p hp => by rw [hpp] at hp; simp at hp; subst hp; rfl)
      pv (by rw [hent]; exact hpv1) hpv2
      (.num 1) (.num 1) (.num 1) 1 1 1 hsc.1 rfl hsc.2.1 rfl hsc.2.2 rfl
    exact ⟨s, m2, run_pipeline_with_memory_ok _ _ _ _ _ _ _ hrun hm2,
      hsent, hsum, hpp, hst⟩

set_option maxHeartbeats 1000000 in
/-- C4 (counterexample): on an empty transcript with no capabilities the
final `step_count` is 8 — `len(AGENT_EXECUTION_ORDER) + 1`, counting the
evaluation agent — not `len(execution_order) = 7` as claimed. -/
theorem pipeline_empty_step_count_cex :
    (pipeOutState (run_pipeline "" noTools false freshMemory 0 0)).step_count = 8 ∧
    AGENT_EXECUTION_ORDER.length = 7 ∧
    (pipeOutState (run_pipeline "" noTools false freshMemory 0 0)).step_count ≠
      AGENT_EXECUTION_ORDER.length := by
  refine ⟨rfl, rfl, ?_⟩
  intro h
  rw [show (pipeOutState (run_pipeline "" noTools false freshMemory 0 0)).step_count = 8
    from rfl] at h
  simp [AGENT_EXECUTION_ORDER] at h

set_option maxHeartbeats 1000000 in
/-- Witness for C4 at a concrete run with no capabilities and the memory
update enabled. -/
theorem pipeline_empty_transcript_outputs_witness :
    ∃ s m2, run_pipeline "" noTools true freshMemory 0 0 = .ok (s, m2) ∧
      s.sentiment = "unknown" ∧
      s.summary = noTranscriptSummary ∧
      s.pain_points = [.str unclearPainPoint] ∧
      s.step_count = AGENT_EXECUTION_ORDER.length + 1 :=
  pipeline_empty_transcript_outputs noTools true freshMemory 0 0
    (Or.inl rfl) (Or.inl rfl)

/-- Did the pipeline raise a (non-configuration) agent exception? -/
def isExcErr {α : Type} : Except PipeErr α → Bool
  | .error (.exc _) => true
  | _ => false

/-- Call state carried by an agents-only run (a fresh state for a
configuration failure). -/
def agentsOut : Except PipeErr CallState → CallState
  | .ok s => s
  | .error (.exc st) => st
  | .error (.keyError _) => {}

/-- The repository registry without the evaluation agent (for exercising
the supervisor's skip path). -/
def noEvalRegistry : List (String × AgentFn) :=
  [ ("cleaning", cleaning_agent),
    ("entities", entities_agent),
    ("summarization", summarization_agent),
    ("sentiment", sentiment_agent),
    ("frustration_loop", frustration_loop_agent),
    ("pain_points", pain_points_agent),
    ("actions", actions_agent) ]

/-- Helper: when every executed name is registered, `runAgents` never
raises a `KeyError`. -/
theorem runAgents_no_keyError (registry : List (String × AgentFn)) (names : List String)
    (hreg : ∀ n ∈ names, (registry.find? (fun kv => kv.1 = n)).isSome = true) :
    ∀ s tools msg, runAgents registry names s tools ≠ .error (.keyError msg) := by
  induction names with
  | nil =>
    intro s tools msg h
    exact Except.noConfusion h
  | cons n rest ih =>
    intro s tools msg h
    unfold runAgents at h
    unfold get_agent at h
    cases hf : registry.find? (fun kv => kv.1 = n) with
    | none =>
      have hn := hreg n (by simp)
      rw [hf] at hn
      exact Bool.noConfusion hn
    | some kv =>
      rw [hf] at h
      dsimp only at h
      cases hr : kv.2 s tools with
      | error st =>
        rw [hr] at h
        dsimp only at h
        injection h with h2
        exact PipeErr.noConfusion h2
      | ok s2 =>
        rw [hr] at h
        dsimp only at h
        exact ih (fun m hm => hreg m (by simp [hm])) s2 tools msg h

/-- C8 (amended): looking up an unregistered agent name raises the distinct
`Unknown agent name` `KeyError` and a registered name returns its agent
(never a silent no-op); a registry without `"evaluation"` makes the
supervisor skip the evaluation step rather than fail; and with the
repository registry no `KeyError` ever escapes `run_pipeline` — every
escaping exception is an agent exception (`PipeErr.exc`), which corrects
the original claim that the configuration-failure class is the only
exception that may propagate. -/
theorem supervisor_error_channels (now : ℚ) :
    (∀ (registry : List (String × AgentFn)) (name : String),
      (registry.find? (fun kv => kv.1 = name) = none ↔
        get_agent registry name = .error ("Unknown agent name: " ++ name)) ∧
      (∀ kv, registry.find? (fun kv2 => kv2.1 = name) = some kv →
        get_agent registry name = .ok kv.2)) ∧
    (∀ (registry : List (String × AgentFn)) (raw : String) (tools : Tools)
        (mem : MemoryState) (t0 : ℚ) (s : CallState),
      registry.find? (fun kv => kv.1 = "evaluation") = none →
      runAgents registry AGENT_EXECUTION_ORDER
        { raw_transcript := raw, start_ts := t0 } tools = .ok s →
      run_pipeline_with registry raw tools false mem t0 = .ok (s, mem)) ∧
    (∀ (raw : String) (tools : Tools) (um : Bool) (mem : MemoryState) (t0 : ℚ)
        (msg : String),
      run_pipeline raw tools um mem t0 now ≠ .error (.keyError msg)) := by
  refine ⟨?_, ?_, ?_⟩
  · intro registry name
    unfold get_agent
    cases hf : registry.find? (fun kv => kv.1 = name) with
    | none =>
      refine ⟨⟨fun _ => rfl, fun _ => rfl⟩, ?_⟩
      intro kv h2
      exact Option.noConfusion h2
    | some kv =>
      refine ⟨⟨fun hc => Option.noConfusion hc, fun hc => Except.noConfusion hc⟩, ?_⟩
      intro kv2 h2
      rw [Option.some.injEq] at h2
      rw [h2]
  · intro registry raw tools mem t0 s hnone hrun
    unfold run_pipeline_with
    simp only [bind, Except.bind, pure, Except.pure, hrun, hnone,
      Bool.false_eq_true, if_false]
  · intro raw tools um mem t0 msg h
    unfold run_pipeline run_pipeline_with at h
    rw [registry_find_evaluation now] at h
    simp only [bind, Except.bind, pure, Except.pure] at h
    split at h
    · rename_i e heq
      injection h with h2
      rw [h2] at heq
      exact runAgents_no_keyError (AGENT_REGISTRY now) AGENT_EXECUTION_ORDER
        (by intro n hn; fin_cases hn <;> rfl) _ tools msg heq
    · rename_i s1 heq1
      split at h
      · rename_i st heq2
        injection h with h2
        exact PipeErr.noConfusion h2
      · rename_i s2 heq2
        rcases um with _ | _
        · simp only [Bool.false_eq_true, if_false] at h
          exact Except.noConfusion h
        · simp only [if_true] at h
          split at h
          · injection h with h2
            exact PipeErr.noConfusion h2
          · exact Except.noConfusion h

set_option maxHeartbeats 4000000 in
/-- C8 (counterexample): the hostile evaluation stub makes an agent
exception — not a configuration failure — escape `run_pipeline`. -/
theorem agent_exception_escapes_cex :
    isExcErr (run_pipeline "hello" hostileEvalTools false freshMemory 0 0) = true := by
  rfl

set_option maxHeartbeats 2000000 in
/-- Witness for C8: a missing name raises the distinct message, a registry
without the evaluation agent skips it, and a concrete run raises no
`KeyError`. -/
theorem supervisor_error_channels_witness :
    get_agent (AGENT_REGISTRY 0) "nonexistent" =
      .error ("Unknown agent name: " ++ "nonexistent") ∧
    run_pipeline_with noEvalRegistry "hi" noTools false freshMemory 0 =
      .ok (agentsOut (runAgents noEvalRegistry AGENT_EXECUTION_ORDER
        { raw_transcript := "hi", start_ts := 0 } noTools), freshMemory) ∧
    run_pipeline "hi" noTools false freshMemory 0 0 ≠ .error (.keyError "x") :=
  ⟨((supervisor_error_channels 0).1 (AGENT_REGISTRY 0) "nonexistent").1.mp rfl,
   (supervisor_error_channels 0).2.1 noEvalRegistry "hi" noTools freshMemory 0 _ rfl rfl,
   (supervisor_error_channels 0).2.2 "hi" noTools false freshMemory 0 "x"⟩
